import Mathlib

/-!
Verification of the promised-io deferred/promise engine.

The development shallowly embeds the newer promise module of the repository
(the second module in `src/unnamed/part_001`, from `module.exports = exports =
new (require("events").EventEmitter)` onwards) together with the parts of the
older promise module that the claims compare against (its `all` combinator and
its `cancel` operation).

Modelling conventions:
* A JavaScript value is a `Value`.  Promise objects are `Value.promise d`
  where `d` indexes the deferred that backs them; they are the only values
  with a callable `then` property, and they are always truthy.
* The mutable closure state of every `Deferred` (`result`, `fulfilled`,
  `isError`, `waiting`, `handled`, the canceller and the armed timeout) is a
  `DefState` stored in a `World` at the deferred index.
* User callbacks handed to `then`/`seq` are embedded as `UserCb`, a pure
  syntax of one-argument functions; running one appends `(tag, argument)` to
  the world trace so that theorems can state how often and with which value a
  callback was invoked.  Library-internal callbacks (a deferred resolve or
  reject function, the closures of `all` and `seq`, the property accessors)
  are the other `LCallback` constructors.
* A JavaScript `throw` is the `.error` case of `Except Value`; every
  embedded operation returns the updated world next to its `Except` outcome,
  because a throw does not undo earlier assignments.
* `setTimeout` bodies are not run by a clock: rejecting a deferred records a
  scheduled unhandled-rejection check in `World.checks`, arming a timeout
  records the deferred in `World.timers`, and the theorems fire them with
  `fireChecks`/`fireTimer`, which embed the corresponding callback bodies.
* The interpreter is fuel-indexed; running out of fuel yields the distinct
  error `fuelOut`, which no theorem ever confuses with a real outcome.
-/

namespace Promised

/-- JavaScript values, as far as the promise engine inspects them.
`promise d` is the (frozen) promise object of deferred `d`. -/
inductive Value where
  | undef : Value
  | boolV : Bool → Value
  | intV : Int → Value
  | strV : String → Value
  | arr : List Value → Value
  | obj : List (String × Value) → Value
  | promise : Nat → Value
  | cancelError : Value
  | timeoutError : Value
  | jsError : String → Value

/-- The strict comparison `v === undefined`. -/
def isUndef : Value → Bool
  | .undef => true
  | _ => false

/-- The `Error("This deferred has already been resolved")` thrown by
`notifyAll` on a second settlement. -/
def alreadyResolved : Value := .jsError "This deferred has already been resolved"

/-- A JavaScript `TypeError` (reading a property of `null`/`undefined`,
calling a missing method, calling a missing `cancel`). -/
def typeError : Value := .jsError "TypeError"

/-- Distinct marker for interpreter fuel exhaustion; not a program value. -/
def fuelOut : Value := .jsError "model out of fuel"

/-- `value && typeof value.then === "function"`: in the model only promise
objects carry a `then` method, and promise objects are always truthy. -/
def isThenable : Value → Bool
  | .promise _ => true
  | _ => false

/-- Property read `v[name]`.  Reading from `undefined` throws a `TypeError`;
plain objects look the name up (missing properties are `undefined`); other
primitives have no modelled own properties. -/
def getPropE : Value → String → Except Value Value
  | .undef, _ => .error typeError
  | .obj fields, name => .ok (((fields.lookup name).getD .undef))
  | _, _ => .ok (.undef)

/-- Method invocation `v[name].apply(v, args)`.  The model has no function
values, so whenever the property read succeeds the application itself throws
a `TypeError` ("not a function"), exactly as JavaScript does when the
property is missing or not callable. -/
def applyMethod (v : Value) (name : String) (_args : List Value) : Except Value Value :=
  match getPropE v name with
  | .error e => .error e
  | .ok _ => .error typeError

/-- Deep embedding of the user-supplied one-argument callbacks the theorems
need: the identity, integer successor, a constant function (which may return
a promise object) and a function that throws. -/
inductive UserCb where
  | ident : UserCb
  | addOne : UserCb
  | constV : Value → UserCb
  | throwE : Value → UserCb

/-- Pure semantics of a user callback: `.ok` is a normal return, `.error` a
throw.  `addOne` is only ever applied to integers in this development. -/
def UserCb.run : UserCb → Value → Except Value Value
  | .ident, v => .ok v
  | .addOne, .intV n => .ok (.intV (n + 1))
  | .addOne, _ => .ok .undef
  | .constV c, _ => .ok c
  | .throwE e, _ => .error e

/-- A callback stored in a listener record: either a tagged user callback, a
deferred resolve or reject function (`newResult.then(listener.deferred.resolve,
listener.deferred.reject)`), one of the closures of the `all` combinators or
of `seq`, or one of the property-accessor callbacks used by
`Promise.prototype.get`/`call`/`put`. -/
inductive LCallback where
  | user : Nat → UserCb → LCallback
  | resolveOf : Nat → LCallback
  | rejectOf : Nat → LCallback
  | allResolvedCb : Nat → Nat → LCallback
  | allRejectedNewCb : Nat → LCallback
  | allRejectedOldCb : Nat → LCallback
  | seqNextCb : Nat → LCallback
  | getPropCb : String → LCallback
  | callMethodCb : String → List Value → LCallback
  | putPropCb : String → Value → LCallback

/-- A canceller: a user canceller function (its Lean function gives the value
it returns, `Value.undef` standing for returning `undefined`), the `cancel`
of another deferred (how `then` wires child cancellation to its parent), or
the canceller closure of an `all` or `seq` combinator instance. -/
inductive Canceller where
  | user : (Value → Value) → Canceller
  | cancelOf : Nat → Canceller
  | allCanceller : Nat → Canceller
  | seqCanceller : Nat → Canceller

/-- A listener record: the three optional callbacks of a `then` call plus the
downstream deferred created by that call. -/
structure Listener where
  onResolved : Option LCallback
  onError : Option LCallback
  onProgress : Option LCallback
  deferred : Nat

/-- The closure state of one `Deferred`: `result`, `fulfilled`, `isError`,
`waiting` (`none` models the `waiting = null` after draining), `handled`,
the optional canceller and the armed `timeout` value. -/
structure DefState where
  result : Value := .undef
  fulfilled : Bool := false
  isError : Bool := false
  waiting : Option (List Listener) := some []
  handled : Bool := false
  canceller : Option Canceller := none
  timeoutMs : Option Nat := none

/-- The closure state of one `all` invocation: the `promises` array of
when-chain promises (`none` before assignment and after cancellation nulls
it), the `results` array (`none` after cancellation nulls it; slots are
`none` until the input at that index fulfills), the `waiting` counter, the
`fulfilled` flag and the aggregate deferred. -/
structure AllCell where
  promises : Option (List Nat) := none
  results : Option (List (Option Value)) := some []
  waiting : Nat := 0
  fulfilled : Bool := false
  deferred : Nat := 0

/-- The closure state of one `seq` invocation: the remaining actions (the
copied `array`, `none` after cancellation nulls it), the `cancelled` flag and
the sequence deferred.  Each action carries a tag for the trace. -/
structure SeqCell where
  remaining : Option (List (Nat × UserCb)) := some []
  cancelled : Bool := false
  deferred : Nat := 0

/-- The whole mutable state: the deferred heap, the combinator cells, the
trace of user-callback invocations, the "error" events emitted on the module,
the scheduled unhandled-rejection checks and the armed timeout timers. -/
structure World where
  defs : Nat → DefState
  nextDef : Nat
  allCells : Nat → AllCell
  nextAll : Nat
  seqCells : Nat → SeqCell
  nextSeq : Nat
  trace : List (Nat × Value)
  emitted : List Value
  checks : List (Nat × Value)
  timers : List Nat

/-- The empty world. -/
def W0 : World :=
  { defs := fun _ => {}, nextDef := 0
    allCells := fun _ => {}, nextAll := 0
    seqCells := fun _ => {}, nextSeq := 0
    trace := [], emitted := [], checks := [], timers := [] }

namespace World

/-- Update one deferred state. -/
def updDef (w : World) (d : Nat) (f : DefState → DefState) : World :=
  { w with defs := Function.update w.defs d (f (w.defs d)) }

/-- Update one `all` cell. -/
def updAll (w : World) (c : Nat) (f : AllCell → AllCell) : World :=
  { w with allCells := Function.update w.allCells c (f (w.allCells c)) }

/-- Update one `seq` cell. -/
def updSeq (w : World) (c : Nat) (f : SeqCell → SeqCell) : World :=
  { w with seqCells := Function.update w.seqCells c (f (w.seqCells c)) }

/-- Record a user-callback invocation in the trace. -/
def pushTrace (w : World) (t : Nat × Value) : World :=
  { w with trace := w.trace ++ [t] }

/-- Emit an "error" event on the module. -/
def emit (w : World) (e : Value) : World :=
  { w with emitted := w.emitted ++ [e] }

/-- Schedule a delayed unhandled-rejection check. -/
def pushCheck (w : World) (c : Nat × Value) : World :=
  { w with checks := w.checks ++ [c] }

end World

/-- `new Deferred(canceller)`: allocate a fresh pending deferred. -/
def freshDef (w : World) (c : Option Canceller) : World × Nat :=
  ({ w with defs := Function.update w.defs w.nextDef { canceller := c }
            nextDef := w.nextDef + 1 },
   w.nextDef)

/-- Decode the JavaScript-boolean encoding used by `step` for the return
value of `reject` (`undefined` and `false` are falsy). -/
def asBool : Value → Bool
  | .boolV b => b
  | _ => false

/-- The operations of the deferred engine.  They are interpreted together by
the single fuel-indexed function `step`, so that the deeply intertwined
recursion of the source (`notifyAll` → `notify` → callbacks → `resolve` /
`reject` / `then` of other deferreds) becomes one structural recursion that
the kernel can evaluate. -/
inductive Op where
  | resolveO : Nat → Value → Op
  | rejectO : Nat → Value → Bool → Op
  | notifyAllO : Nat → Value → Op
  | notifyLoopO : Nat → Nat → Op
  | notifyO : Nat → Listener → Op
  | thenO : Nat → Option LCallback → Option LCallback → Option LCallback → Op
  | cancelO : Nat → Value → Op
  | runCancellerO : Canceller → Value → Op
  | cancelListO : List Nat → Op
  | runLCO : LCallback → Value → Op
  | seqNextO : Nat → Value → Op
  | whenO : Value → Option LCallback → Option LCallback → Option LCallback → Op
  | resolvedO : Value → Op
  | rejectedO : Value → Op
  | progressLoopO : Nat → Nat → Value → Op

/-- One interpreter for all engine operations.  Results are encoded as
`Value`s: operations returning nothing yield `.undef`, `reject` yields its
`handled` boolean, and the promise-returning operations (`then`, `when`,
`resolved`, `rejected`) yield `.promise child`.  An `.error` is a JavaScript
throw.  Each branch embeds the correspondingly named source function; see
the named wrappers below for the quoted source. -/
def step : Nat → World → Op → World × Except Value Value
  | 0, w, _ => (w, .error fuelOut)
  | fuel + 1, w, op =>
    match op with
    | .resolveO d v =>
      -- `this.resolve = function(value){ notifyAll(value); };`
      step fuel w (.notifyAllO d v)
    | .rejectO d e ignoreUnhandled =>
      -- `this.reject = function(error, ignoreUnhandled){ isError = true;
      -- notifyAll(error); if(!ignoreUnhandled && !handled){
      -- setTimeout(function(){ if(!handled){ exports.emit("error", error); } },
      -- exports.unhandledTimeout); } return handled; };`
      -- `isError = true` happens before `notifyAll` can throw, so it
      -- survives a double-settlement throw.  Scheduling the delayed check
      -- appends to `World.checks`; its body is `fireCheck`.
      let w := w.updDef d (fun s => { s with isError := true })
      match step fuel w (.notifyAllO d e) with
      | (w1, .error ex) => (w1, .error ex)
      | (w1, .ok _) =>
        let h := (w1.defs d).handled
        if !ignoreUnhandled && !h then (w1.pushCheck (d, e), .ok (.boolV h))
        else (w1, .ok (.boolV h))
    | .notifyAllO d v =>
      -- `function notifyAll(value){ if(fulfilled){ throw new Error("This
      -- deferred has already been resolved"); } result = value; fulfilled =
      -- true; for(var i = 0; i < waiting.length; i++){ notify(waiting[i]); }
      -- waiting = null; }`
      if (w.defs d).fulfilled then (w, .error alreadyResolved)
      else
        let w := w.updDef d (fun s => { s with result := v, fulfilled := true })
        match step fuel w (.notifyLoopO d 0) with
        | (w1, .ok _) =>
          (w1.updDef d (fun s => { s with waiting := none }), .ok .undef)
        | (w1, .error ex) => (w1, .error ex)
    | .notifyLoopO d i =>
      -- the index-bounded loop of `notifyAll`; `waiting` is re-read on every
      -- iteration because listeners can be appended while notifying
      match (w.defs d).waiting with
      | none => (w, .ok .undef)
      | some ws =>
        if h : i < ws.length then
          match step fuel w (.notifyO d (ws.get ⟨i, h⟩)) with
          | (w1, .ok _) => step fuel w1 (.notifyLoopO d (i + 1))
          | (w1, .error ex) => (w1, .error ex)
        else (w, .ok .undef)
    | .notifyO d l =>
      -- `function notify(listener){ var func = (isError ? listener.error :
      -- listener.resolved); if(func){ handled = true; try{ var newResult =
      -- func(result); if(newResult && typeof newResult.then === "function"){
      -- newResult.then(listener.deferred.resolve, listener.deferred.reject);
      -- return; } listener.deferred.resolve(newResult); }catch(e){
      -- listener.deferred.reject(e); } }else{ if(isError){ handled =
      -- listener.deferred.reject(result, true); }else{
      -- listener.deferred.resolve(result); } } }`
      let st := w.defs d
      match (if st.isError then l.onError else l.onResolved) with
      | some func =>
        let w := w.updDef d (fun s => { s with handled := true })
        match step fuel w (.runLCO func st.result) with
        | (w1, .error e) =>
          match step fuel w1 (.rejectO l.deferred e false) with
          | (w2, .ok _) => (w2, .ok .undef)
          | (w2, .error ex) => (w2, .error ex)
        | (w1, .ok newResult) =>
          match newResult with
          | .promise q =>
            match step fuel w1 (.thenO q (some (.resolveOf l.deferred))
                (some (.rejectOf l.deferred)) none) with
            | (w2, .ok _) => (w2, .ok .undef)
            | (w2, .error e) =>
              match step fuel w2 (.rejectO l.deferred e false) with
              | (w3, .ok _) => (w3, .ok .undef)
              | (w3, .error ex) => (w3, .error ex)
          | nr =>
            match step fuel w1 (.resolveO l.deferred nr) with
            | (w2, .ok _) => (w2, .ok .undef)
            | (w2, .error e) =>
              match step fuel w2 (.rejectO l.deferred e false) with
              | (w3, .ok _) => (w3, .ok .undef)
              | (w3, .error ex) => (w3, .error ex)
      | none =>
        if st.isError then
          match step fuel w (.rejectO l.deferred st.result true) with
          | (w1, .ok hv) =>
            (w1.updDef d (fun s => { s with handled := asBool hv }), .ok .undef)
          | (w1, .error ex) => (w1, .error ex)
        else
          match step fuel w (.resolveO l.deferred st.result) with
          | (w1, .ok _) => (w1, .ok .undef)
          | (w1, .error ex) => (w1, .error ex)
    | .thenO d rc ec pc =>
      -- `this.then = function(resolvedCallback, rejectCallback,
      -- progressCallback){ var returnDeferred = new Deferred(promise.cancel);
      -- var listener = { resolved: ..., error: ..., progress: ..., deferred:
      -- returnDeferred }; if(fulfilled && !waiting){ notify(listener); }else{
      -- waiting.push(listener); } return returnDeferred.promise; };`
      -- The child is cancellable exactly when the parent promise has a
      -- `cancel` method, and cancelling it cancels the parent.
      let childCanceller : Option Canceller :=
        if (w.defs d).canceller.isSome then some (.cancelOf d) else none
      let (w1, child) := freshDef w childCanceller
      let l : Listener := ⟨rc, ec, pc, child⟩
      let st := w1.defs d
      if st.fulfilled && st.waiting.isNone then
        match step fuel w1 (.notifyO d l) with
        | (w2, .ok _) => (w2, .ok (.promise child))
        | (w2, .error ex) => (w2, .error ex)
      else
        (w1.updDef d (fun s => { s with waiting := s.waiting.map (· ++ [l]) }),
         .ok (.promise child))
    | .cancelO d reason =>
      -- newer-module `this.cancel = function(reason){ if(!fulfilled){ var
      -- error = canceller(reason); if(error === undefined){ error = new
      -- CancelError; } if(!fulfilled){ reject(error); } } };`
      match (w.defs d).canceller with
      | none => (w, .error typeError)
      | some c =>
        if (w.defs d).fulfilled then (w, .ok .undef)
        else
          match step fuel w (.runCancellerO c reason) with
          | (w1, .error ex) => (w1, .error ex)
          | (w1, .ok ret) =>
            let err := if isUndef ret then Value.cancelError else ret
            if (w1.defs d).fulfilled then (w1, .ok .undef)
            else
              match step fuel w1 (.rejectO d err false) with
              | (w2, .ok _) => (w2, .ok .undef)
              | (w2, .error ex) => (w2, .error ex)
    | .runCancellerO c reason =>
      -- run a canceller; the `.ok` value is what the canceller returns
      -- (`undef` models returning `undefined`).
      match c with
      | .user f => (w, .ok (f reason))
      | .cancelOf d =>
        -- `promise.cancel` of deferred `d`, as passed by `then` to
        -- `new Deferred(promise.cancel)`; a cancel call returns `undefined`.
        match step fuel w (.cancelO d reason) with
        | (w1, .ok _) => (w1, .ok .undef)
        | (w1, .error ex) => (w1, .error ex)
      | .allCanceller cell =>
        -- `function(){ promises.forEach(function(promise){ promise.cancel &&
        -- promise.cancel(); }); promises = results = null; }`
        match (w.allCells cell).promises with
        | none => (w, .error typeError)
        | some ps =>
          match step fuel w (.cancelListO ps) with
          | (w1, .ok _) =>
            (w1.updAll cell (fun s => { s with promises := none, results := none }),
             .ok .undef)
          | (w1, .error ex) => (w1, .error ex)
      | .seqCanceller cell =>
        -- `function(){ cancelled = true; array = null; }`
        (w.updSeq cell (fun s => { s with cancelled := true, remaining := none }),
         .ok .undef)
    | .cancelListO ps =>
      -- `promises.forEach(function(promise){ promise.cancel &&
      -- promise.cancel(); });` — cancel is invoked with no argument.
      match ps with
      | [] => (w, .ok .undef)
      | p :: rest =>
        if (w.defs p).canceller.isSome then
          match step fuel w (.cancelO p .undef) with
          | (w1, .ok _) => step fuel w1 (.cancelListO rest)
          | (w1, .error ex) => (w1, .error ex)
        else step fuel w (.cancelListO rest)
    | .runLCO cb arg =>
      -- invoke a listener callback
      match cb with
      | .user tag f =>
        -- a user callback: traced, with the pure semantics of `UserCb.run`
        (w.pushTrace (tag, arg), f.run arg)
      | .resolveOf d =>
        -- `listener.deferred.resolve` used as a callback; returns `undefined`
        match step fuel w (.resolveO d arg) with
        | (w1, .ok _) => (w1, .ok .undef)
        | (w1, .error ex) => (w1, .error ex)
      | .rejectOf d =>
        -- `listener.deferred.reject` (or `deferred.reject` in `seq`) used as
        -- a callback; called with one argument, so `ignoreUnhandled` is false
        step fuel w (.rejectO d arg false)
      | .allResolvedCb cell idx =>
        -- `function(value){ if(!fulfilled){ results[index] = value;
        -- waiting--; if(waiting === 0){ fulfilled = true;
        -- deferred.resolve(results); } } }`
        let c := w.allCells cell
        if c.fulfilled then (w, .ok .undef)
        else
          match c.results with
          | none => (w, .error typeError)
          | some rs =>
            let rs1 := rs.set idx (some arg)
            let w1 := w.updAll cell
              (fun s => { s with results := some rs1, waiting := s.waiting - 1 })
            if c.waiting - 1 = 0 then
              let w2 := w1.updAll cell (fun s => { s with fulfilled := true })
              match step fuel w2 (.resolveO c.deferred
                  (.arr (rs1.map (fun r => r.getD .undef)))) with
              | (w3, .ok _) => (w3, .ok .undef)
              | (w3, .error ex) => (w3, .error ex)
            else (w1, .ok .undef)
      | .allRejectedNewCb cell =>
        -- newer module: `function(error){ if(!fulfilled){ fulfilled = true;
        -- deferred.reject(error); } }`
        let c := w.allCells cell
        if c.fulfilled then (w, .ok .undef)
        else
          let w1 := w.updAll cell (fun s => { s with fulfilled := true })
          match step fuel w1 (.rejectO c.deferred arg false) with
          | (w2, .ok _) => (w2, .ok .undef)
          | (w2, .error ex) => (w2, .error ex)
      | .allRejectedOldCb cell =>
        -- older module: `function(error){ if(!fulfilled){
        -- deferred.reject(error); } }` — it does NOT set `fulfilled`.
        let c := w.allCells cell
        if c.fulfilled then (w, .ok .undef)
        else
          match step fuel w (.rejectO c.deferred arg false) with
          | (w2, .ok _) => (w2, .ok .undef)
          | (w2, .error ex) => (w2, .error ex)
      | .seqNextCb cell => step fuel w (.seqNextO cell arg)
      | .getPropCb name =>
        -- `function(value){ return value[propertyName]; }`
        (w, getPropE arg name)
      | .callMethodCb name args =>
        -- `function(value){ return value[functionName].apply(value, args); }`
        (w, applyMethod arg name args)
      | .putPropCb _ v =>
        -- `function(object){ return object[propertyName] = value; }` — the
        -- assignment evaluates to the assigned value (object mutation of
        -- plain targets is outside the model)
        (w, .ok v)
    | .seqNextO cell value =>
      -- the `next` closure of `seq`: `function next(value){ if(cancelled){
      -- return; } var nextAction = array.shift(); if(nextAction){ try{
      -- when(nextAction(value), next, deferred.reject); }catch(e){
      -- deferred.reject(e); } }else{ deferred.resolve(value); } }`
      -- Invoking an action appends its tag and argument to the trace.
      let c := w.seqCells cell
      if c.cancelled then (w, .ok .undef)
      else
        match c.remaining with
        | none => (w, .error typeError)
        | some [] =>
          match step fuel w (.resolveO c.deferred value) with
          | (w1, .ok _) => (w1, .ok .undef)
          | (w1, .error ex) => (w1, .error ex)
        | some ((tag, act) :: rest) =>
          let w1 := w.updSeq cell (fun s => { s with remaining := some rest })
          let w2 := w1.pushTrace (tag, value)
          match act.run value with
          | .error e =>
            match step fuel w2 (.rejectO c.deferred e false) with
            | (w3, .ok _) => (w3, .ok .undef)
            | (w3, .error ex) => (w3, .error ex)
          | .ok r =>
            match step fuel w2 (.whenO r (some (.seqNextCb cell))
                (some (.rejectOf c.deferred)) none) with
            | (w3, .ok _) => (w3, .ok .undef)
            | (w3, .error e) =>
              match step fuel w3 (.rejectO c.deferred e false) with
              | (w4, .ok _) => (w4, .ok .undef)
              | (w4, .error ex) => (w4, .error ex)
    | .whenO value rc ec pc =>
      -- `function when(value, resolvedCallback, rejectCallback,
      -- progressCallback){ if(value && typeof value.then === "function"){
      -- return value.then(...); }else{ return resolved(value).then(...); } }`
      match value with
      | .promise d => step fuel w (.thenO d rc ec pc)
      | v =>
        match step fuel w (.resolvedO v) with
        | (w1, .ok (.promise d)) => step fuel w1 (.thenO d rc ec pc)
        | (w1, .ok _) => (w1, .error fuelOut)
        | (w1, .error ex) => (w1, .error ex)
    | .resolvedO v =>
      -- `function resolved(value){ var deferred = new Deferred;
      -- deferred.resolve(value); return deferred.promise; }`
      let (w1, d) := freshDef w none
      match step fuel w1 (.resolveO d v) with
      | (w2, .ok _) => (w2, .ok (.promise d))
      | (w2, .error ex) => (w2, .error ex)
    | .rejectedO e =>
      -- `function rejected(error){ var deferred = new Deferred;
      -- deferred.reject(error); return deferred.promise; }` —
      -- `ignoreUnhandled` is not passed, so a check is scheduled
      let (w1, d) := freshDef w none
      match step fuel w1 (.rejectO d e false) with
      | (w2, .ok _) => (w2, .ok (.promise d))
      | (w2, .error ex) => (w2, .error ex)
    | .progressLoopO d i update =>
      -- `this.progress = function(update){ for(var i = 0; i <
      -- waiting.length; i++){ var progress = waiting[i].progress; progress &&
      -- progress(update); } };` — evaluating `waiting.length` when `waiting`
      -- is `null` throws a `TypeError`, and the loop condition re-evaluates
      -- it on every iteration
      match (w.defs d).waiting with
      | none => (w, .error typeError)
      | some ws =>
        if h : i < ws.length then
          match (ws.get ⟨i, h⟩).onProgress with
          | some p =>
            match step fuel w (.runLCO p update) with
            | (w1, .ok _) => step fuel w1 (.progressLoopO d (i + 1) update)
            | (w1, .error ex) => (w1, .error ex)
          | none => step fuel w (.progressLoopO d (i + 1) update)
        else (w, .ok .undef)

/-- `this.resolve = function(value){ notifyAll(value); };` -/
def resolve (fuel : Nat) (w : World) (d : Nat) (v : Value) :
    World × Except Value Unit :=
  let (w1, r) := step fuel w (.resolveO d v)
  (w1, r.map fun _ => ())

/-- `this.reject = function(error, ignoreUnhandled){ ... return handled; };` -/
def reject (fuel : Nat) (w : World) (d : Nat) (e : Value)
    (ignoreUnhandled : Bool) : World × Except Value Bool :=
  let (w1, r) := step fuel w (.rejectO d e ignoreUnhandled)
  (w1, r.map asBool)

/-- `this.then = function(resolvedCallback, rejectCallback, progressCallback)`
on deferred `d`; the `.ok` value is the index of the returned promise. -/
def thenOp (fuel : Nat) (w : World) (d : Nat) (rc ec pc : Option LCallback) :
    World × Except Value Nat :=
  let (w1, r) := step fuel w (.thenO d rc ec pc)
  (w1, r.map fun v => match v with | .promise c => c | _ => 0)

/-- Newer-module `this.cancel = function(reason){ ... };` -/
def cancelOp (fuel : Nat) (w : World) (d : Nat) (reason : Value) :
    World × Except Value Unit :=
  let (w1, r) := step fuel w (.cancelO d reason)
  (w1, r.map fun _ => ())

/-- `function when(value, ...)`; the `.ok` value indexes the returned
promise. -/
def whenOp (fuel : Nat) (w : World) (value : Value)
    (rc ec pc : Option LCallback) : World × Except Value Nat :=
  let (w1, r) := step fuel w (.whenO value rc ec pc)
  (w1, r.map fun v => match v with | .promise c => c | _ => 0)

/-- `function resolved(value)`; the `.ok` value indexes the returned
promise. -/
def resolvedOp (fuel : Nat) (w : World) (v : Value) : World × Except Value Nat :=
  let (w1, r) := step fuel w (.resolvedO v)
  (w1, r.map fun x => match x with | .promise c => c | _ => 0)

/-- `function rejected(error)`; the `.ok` value indexes the returned
promise. -/
def rejectedOp (fuel : Nat) (w : World) (e : Value) : World × Except Value Nat :=
  let (w1, r) := step fuel w (.rejectedO e)
  (w1, r.map fun x => match x with | .promise c => c | _ => 0)

/-- Run one `seq` step (`next(value)`). -/
def seqNextRun (fuel : Nat) (w : World) (cell : Nat) (v : Value) :
    World × Except Value Value :=
  step fuel w (.seqNextO cell v)

/-- Run a canceller (see `Op.runCancellerO`). -/
def runCanceller (fuel : Nat) (w : World) (c : Canceller) (reason : Value) :
    World × Except Value Value :=
  step fuel w (.runCancellerO c reason)

-- WORLDLEMMAS_MOVED


/-- `this.progress = function(update){ ... }` starts its loop at index 0. -/
def progressOp (fuel : Nat) (w : World) (d : Nat) (update : Value) :
    World × Except Value Unit :=
  let (w1, r) := step fuel w (.progressLoopO d 0 update)
  (w1, r.map fun _ => ())

/-- `this.timeout = function(ms){ if(ms === undefined || timeout !==
undefined){ return timeout; } timeout = ms; setTimeout(..., ms); return
promise; }` — arming records the deferred in `World.timers`; the timer body
is `fireTimer`. -/
def timeoutOp (w : World) (d : Nat) (ms : Nat) : World :=
  if (w.defs d).timeoutMs.isSome then w
  else
    let w1 := w.updDef d (fun s => { s with timeoutMs := some ms })
    { w1 with timers := w1.timers ++ [d] }

/-- The timer body armed by `timeout`: `if(!fulfilled){ if(promise.cancel){
promise.cancel(new TimeoutError); }else{ reject(new TimeoutError); } }` -/
def fireTimer (fuel : Nat) (w : World) (d : Nat) : World × Except Value Unit :=
  if (w.defs d).fulfilled then (w, .ok ())
  else if (w.defs d).canceller.isSome then cancelOp fuel w d .timeoutError
  else
    match reject fuel w d .timeoutError false with
    | (w1, .ok _) => (w1, .ok ())
    | (w1, .error ex) => (w1, .error ex)

/-- The delayed check scheduled by `reject`: `function(){ if(!handled){
exports.emit("error", error); } }` — it re-reads the deferred handled flag
at fire time. -/
def fireCheck (w : World) (d : Nat) (e : Value) : World :=
  if (w.defs d).handled then w else w.emit e

/-- Fire every scheduled unhandled-rejection check once, in scheduling
order (the grace period, `exports.unhandledTimeout = 100`, elapsing). -/
def fireChecks (w : World) : World :=
  w.checks.foldl (fun acc c => fireCheck acc c.1 c.2) { w with checks := [] }

/-- The grace period before an unobserved rejection is reported:
`exports.unhandledTimeout = 100;` (named `errorTimeout` in the older
module, with the same value). -/
def unhandledTimeout : Nat := 100

/-- Older-module `this.cancel = promise.cancel = function(){ if(!fulfilled){
var error = canceller(); if(error === undefined){ error = new CancelError; }
if(!fulfilled){ reject(error); } } };` — unlike the newer module, the
canceller is invoked with no argument, so a cancellation reason is never
forwarded to it. -/
def cancelOpOld (fuel : Nat) (w : World) (d : Nat) (_reason : Value) :
    World × Except Value Unit :=
  match (w.defs d).canceller with
  | none => (w, .error typeError)
  | some c =>
    if (w.defs d).fulfilled then (w, .ok ())
    else
      match runCanceller fuel w c .undef with
      | (w1, .error ex) => (w1, .error ex)
      | (w1, .ok ret) =>
        let err := if isUndef ret then Value.cancelError else ret
        if (w1.defs d).fulfilled then (w1, .ok ())
        else
          match reject fuel w1 d err false with
          | (w2, .ok _) => (w2, .ok ())
          | (w2, .error ex) => (w2, .error ex)

/-- `promises = array.map(function(promise, index){ return when(promise,
function(value){...}, function(error){...}); });` — attach the two `all`
closures to every input, collecting the when-chain promises.  `rej` selects
the newer or the older rejection closure. -/
def allAttach (fuel : Nat) (rej : LCallback) (cell : Nat) :
    World → List Value → Nat → World × Except Value (List Nat)
  | w, [], _ => (w, .ok [])
  | w, v :: rest, idx =>
    match whenOp fuel w v (some (.allResolvedCb cell idx)) (some rej) none with
    | (w1, .ok p) =>
      match allAttach fuel rej cell w1 rest (idx + 1) with
      | (w2, .ok ps) => (w2, .ok (p :: ps))
      | (w2, .error ex) => (w2, .error ex)
    | (w1, .error ex) => (w1, .error ex)

/-- Newer-module `all`: `var waiting = array.length; if(waiting === 0){
return resolved([]); } var promises, results = []; var fulfilled; var
deferred = new Deferred(canceller); promises = array.map(...); array = null;
return deferred.promise;`.  The `results` array only ever receives writes at
indices below the input length, so it is modelled pre-sized with empty
slots; at resolution time every slot is filled, as in the source. -/
def allNew (fuel : Nat) (w : World) (array : List Value) :
    World × Except Value Nat :=
  if array.length = 0 then resolvedOp fuel w (.arr [])
  else
    let cell := w.nextAll
    let aggregate := w.nextDef
    let w1 := { w with
      nextAll := w.nextAll + 1
      allCells := Function.update w.allCells cell
        { promises := none, results := some (List.replicate array.length none)
          waiting := array.length, fulfilled := false, deferred := aggregate } }
    let (w2, _) := freshDef w1 (some (.allCanceller cell))
    match allAttach fuel (.allRejectedNewCb cell) cell w2 array 0 with
    | (w3, .ok ps) =>
      (w3.updAll cell (fun s => { s with promises := some ps }), .ok aggregate)
    | (w3, .error ex) => (w3, .error ex)

/-- Older-module `all`: `var promises, results = []; var fulfilled; var
waiting = array.length; var deferred = new Deferred(canceller); if(waiting
=== 0){ deferred.resolve(results); }else{ promises = array.map(...); }
return deferred.promise;` — even the empty input gets a cancellable
deferred, and the rejection closure never sets `fulfilled`. -/
def allOld (fuel : Nat) (w : World) (array : List Value) :
    World × Except Value Nat :=
  let cell := w.nextAll
  let aggregate := w.nextDef
  let w1 := { w with
    nextAll := w.nextAll + 1
    allCells := Function.update w.allCells cell
      { promises := none, results := some (List.replicate array.length none)
        waiting := array.length, fulfilled := false, deferred := aggregate } }
  let (w2, _) := freshDef w1 (some (.allCanceller cell))
  if array.length = 0 then
    match resolve fuel w2 aggregate (.arr []) with
    | (w3, .ok _) => (w3, .ok aggregate)
    | (w3, .error ex) => (w3, .error ex)
  else
    match allAttach fuel (.allRejectedOldCb cell) cell w2 array 0 with
    | (w3, .ok ps) =>
      (w3.updAll cell (fun s => { s with promises := some ps }), .ok aggregate)
    | (w3, .error ex) => (w3, .error ex)

/-- `exports.seq = function(array, startingValue){ array = array.slice();
var cancelled = false; var deferred = new Deferred(function(){ cancelled =
true; array = null; }); function next(value){...} next(startingValue);
return deferred.promise; }` -/
def seqOp (fuel : Nat) (w : World) (actions : List (Nat × UserCb))
    (startingValue : Value) : World × Except Value Nat :=
  let cell := w.nextSeq
  let d := w.nextDef
  let w1 := { w with
    nextSeq := w.nextSeq + 1
    seqCells := Function.update w.seqCells cell
      { remaining := some actions, cancelled := false, deferred := d } }
  let (w2, _) := freshDef w1 (some (.seqCanceller cell))
  match seqNextRun fuel w2 cell startingValue with
  | (w3, .ok _) => (w3, .ok d)
  | (w3, .error ex) => (w3, .error ex)

/-- `function perform(value, async, sync){ try{ if(value && typeof
value.then === "function"){ value = async(value); }else{ value =
sync(value); } if(value && typeof value.then === "function"){ return value;
} return resolved(value); }catch(e){ return rejected(value); } }` — when the
call throws, `value` was never reassigned, so the catch clause rejects with
the ORIGINAL target, not with the thrown error. -/
def perform (fuel : Nat) (w : World) (value : Value)
    (asyncF : World → Nat → World × Except Value Value)
    (syncF : Value → Except Value Value) : World × Except Value Nat :=
  match value with
  | .promise q =>
    match asyncF w q with
    | (w1, .ok v1) =>
      match v1 with
      | .promise r => (w1, .ok r)
      | v2 => resolvedOp fuel w1 v2
    | (w1, .error _) => rejectedOp fuel w1 value
  | v =>
    match syncF v with
    | .ok v1 =>
      match v1 with
      | .promise r => (w, .ok r)
      | v2 => resolvedOp fuel w v2
    | .error _ => rejectedOp fuel w value

/-- Module-level `exports.get = function(target, property){ return
perform(target, function(target){ return target.get(property); },
function(target){ return target[property]; }); };` — the async branch is
`Promise.prototype.get`, i.e. `this.then(function(value){ return
value[propertyName]; })`. -/
def moduleGet (fuel : Nat) (w : World) (target : Value) (name : String) :
    World × Except Value Nat :=
  perform fuel w target
    (fun w1 q =>
      match thenOp fuel w1 q (some (.getPropCb name)) none none with
      | (w2, .ok p) => (w2, .ok (.promise p))
      | (w2, .error ex) => (w2, .error ex))
    (fun t => getPropE t name)

/-- Module-level `exports.call = function(target, methodName, args){ return
perform(target, function(target){ return target.call(methodName, args); },
function(target){ return target[methodName].apply(target, args); }); };` —
note the async branch hands `args` to `Promise.prototype.call` as a single
argument, so the method is invoked with one argument, the array itself. -/
def moduleCall (fuel : Nat) (w : World) (target : Value) (name : String)
    (args : List Value) : World × Except Value Nat :=
  perform fuel w target
    (fun w1 q =>
      match thenOp fuel w1 q (some (.callMethodCb name [Value.arr args])) none none with
      | (w2, .ok p) => (w2, .ok (.promise p))
      | (w2, .error ex) => (w2, .error ex))
    (fun t => applyMethod t name args)

/-- Module-level `exports.put = function(target, property, value){ return
perform(target, function(target){ return target.put(property, value); },
function(target){ return target[property] = value; }); };` — plain-object
mutation is not modelled; the assignment evaluates to the assigned value. -/
def modulePut (fuel : Nat) (w : World) (target : Value) (name : String)
    (v : Value) : World × Except Value Nat :=
  perform fuel w target
    (fun w1 q =>
      match thenOp fuel w1 q (some (.putPropCb name v)) none none with
      | (w2, .ok p) => (w2, .ok (.promise p))
      | (w2, .error ex) => (w2, .error ex))
    (fun _ => .ok v)

/-! ### Concrete scenarios used by the claim theorems -/

/-- Does the promise of deferred `d` expose a `cancel` method? -/
def hasCancel (w : World) (d : Nat) : Bool :=
  (w.defs d).canceller.isSome

/-- The world with `n` pending deferreds (indices `0 .. n-1`): since a fresh
deferred state is the default state, this is the empty world with the
allocation counter advanced. -/
def mkPendingN (n : Nat) : World := { W0 with nextDef := n }

/-- The world of `all((range n).map promise)` over `n` pending deferreds:
input deferreds `0 .. n-1`, aggregate deferred `n`, when-chain children
`n+1 .. 2n`, cell `0`. -/
def allSetup (n : Nat) : World :=
  (allNew 20 (mkPendingN n) ((List.range n).map Value.promise)).1

/-- Settle the input deferreds in the given order, index `i` with value
`vs i`. -/
def settleAll (vs : Nat → Value) (order : List Nat) (w : World) : World :=
  order.foldl (fun acc i => (resolve 20 acc i (vs i)).1) w

/-- C1: deferred `0`, pending. -/
def c1A : World := (freshDef W0 none).1

/-- C1: deferred `0` resolved with `1`. -/
def c1B : World := (resolve 50 c1A 0 (.intV 1)).1

/-- C1: the outcome of rejecting the already-resolved deferred with `2`. -/
def c1rej : World × Except Value Bool := reject 50 c1B 0 (.intV 2) false

/-- C1: observing the deferred with `then(f, g)` after the failed reject
(`f` is user callback 1, `g` is user callback 2). -/
def c1obs : World × Except Value Nat :=
  thenOp 50 c1rej.1 0 (some (.user 1 .ident)) (some (.user 2 .ident)) none

/-- C3: `rejected(e)` — deferred `0` rejected with `e`. -/
def c3w (e : Value) : World := (rejectedOp 50 W0 e).1

/-- C3: `rejected(e).then(null, g)` with `g` user callback 7. -/
def c3thenG (e : Value) : World × Except Value Nat :=
  thenOp 50 (c3w e) 0 none (some (.user 7 (.constV .undef))) none

/-- C3: `rejected(e).then(f)` with `f` user callback 8 and no reject
callback. -/
def c3thenF (e : Value) : World × Except Value Nat :=
  thenOp 50 (c3w e) 0 (some (.user 8 .ident)) none none

/-- C4: deferred `0` pending, constructed with user canceller `f`. -/
def c4w (f : Value → Value) : World := (freshDef W0 (some (.user f))).1

/-- C4: the same deferred after `resolve(v)`. -/
def c4settled (f : Value → Value) (v : Value) : World :=
  (resolve 50 (c4w f) 0 v).1

/-- C5: deferred `0` with user canceller `f` and `timeout(5)` armed. -/
def c5arm (f : Value → Value) : World :=
  timeoutOp (freshDef W0 (some (.user f))).1 0 5

/-- C5: non-cancellable deferred `0` with `timeout(5)` armed. -/
def c5nc : World := timeoutOp (freshDef W0 none).1 0 5

/-- C6: deferred `0` pending with a fulfillment-only listener
(`p1 = d.then(f)`, child `1`), then rejected with `e`; no reject callback
anywhere. -/
def c6unobserved (e : Value) : World :=
  (reject 50 (thenOp 50 (freshDef W0 none).1 0 (some (.user 1 .ident)) none none).1
    0 e false).1

/-- C6: deferred `0` rejected with `e` and then, before the grace period,
observed directly via `d.then(null, g)` (`g` is user callback 2). -/
def c6directAttach (e : Value) : World :=
  (thenOp 50 (reject 50 (freshDef W0 none).1 0 e false).1
    0 none (some (.user 2 (.constV .undef))) none).1

/-- C6: chain `p1 = d.then(f); p1.then(null, g)` wired before the rejection,
then `d` rejected with `e`. -/
def c6preAttach (e : Value) : World :=
  (reject 50
    (thenOp 50 (thenOp 50 (freshDef W0 none).1 0 (some (.user 1 .ident)) none none).1
      1 none (some (.user 2 (.constV .undef))) none).1
    0 e false).1

/-- C6 counterexample world: `p1 = d.then(f)`; `d` rejected with `5`; THEN
(still before the grace period) `p1.then(null, g)` attaches a reject
callback one hop downstream. -/
def c6late : World :=
  (thenOp 50 (c6unobserved (.intV 5)) 1 none (some (.user 2 (.constV .undef))) none).1

/-- C7: the trace `seq` should produce when every action is pure: each action
is invoked once with the previous result, stopping after a throw. -/
def seqSpecTrace : List (Nat × UserCb) → Value → List (Nat × Value)
  | [], _ => []
  | (t, a) :: rest, v =>
    (t, v) ::
      match a.run v with
      | .ok r => seqSpecTrace rest r
      | .error _ => []

/-- C7: the settlement `seq` should reach when every action is pure: the last
result, or the first thrown error. -/
def seqSpecOutcome : List (Nat × UserCb) → Value → Except Value Value
  | [], v => .ok v
  | (_, a) :: rest, v =>
    match a.run v with
    | .ok r => seqSpecOutcome rest r
    | .error e => .error e

/-- C7: an action list is pure when no action returns a promise object. -/
def PureActions (actions : List (Nat × UserCb)) : Prop :=
  ∀ p ∈ actions, ∀ x r, p.2.run x = .ok r → isThenable r = false

/-- C7: the pending state of the `seq` deferred (fresh, with the `seq`
canceller closure). -/
def seqPendingState (cell : Nat) : DefState :=
  { canceller := some (.seqCanceller cell) }

/-- C7: the settled state the `seq` deferred reaches for a given outcome:
fulfilled with the final value, or rejected with the first thrown error. -/
def seqDoneState (cell : Nat) : Except Value Value → DefState
  | .ok u => { result := u, fulfilled := true, waiting := none,
               canceller := some (.seqCanceller cell) }
  | .error e => { result := e, fulfilled := true, isError := true,
                  waiting := none, canceller := some (.seqCanceller cell) }

/-- C7 witness scenario: increment, then throw `true`, then increment. -/
def c7acts : List (Nat × UserCb) :=
  [(1, .addOne), (2, .throwE (.boolV true)), (3, .addOne)]

/-- C7 promise-rejection scenario: deferred `0` pending; `seq` (deferred `1`,
cell `0`) over `[addOne, const (promise 0), addOne]` started at `n`; then
deferred `0` is rejected with `e`. -/
def c7promiseWorld (n : Int) (e : Value) : World :=
  (reject 50
    (seqOp 50 (freshDef W0 none).1
      [(1, .addOne), (2, .constV (.promise 0)), (3, .addOne)] (.intV n)).1
    0 e false).1

/-- C8: deferred `0` resolved with `v` (a normally completed settlement). -/
def c8resolved (v : Value) : World × Except Value Unit :=
  resolve 50 (freshDef W0 none).1 0 v

/-- C8: deferred `0` rejected with `e`. -/
def c8rejected (e : Value) : World × Except Value Bool :=
  reject 50 (freshDef W0 none).1 0 e false

/-- C10: two pending input deferreds `0`, `1`. -/
def c10in : World := (freshDef (freshDef W0 none).1 none).1

/-- C10: older-module `all` over the two pending inputs (aggregate `2`,
children `3`, `4`), both of which then reject (`0` with `e1`, then `1` with
`e2`). -/
def c10oldDouble (e1 e2 : Value) : World :=
  (reject 50
    (reject 50 (allOld 50 c10in [.promise 0, .promise 1]).1 0 e1 false).1
    1 e2 false).1

/-- C10: newer-module `all` over the two pending inputs, both of which then
reject. -/
def c10newDouble (e1 e2 : Value) : World :=
  (reject 50
    (reject 50 (allNew 50 c10in [.promise 0, .promise 1]).1 0 e1 false).1
    1 e2 false).1

/-- C10: older-module `all` over the two pending inputs, both of which then
fulfill, second first. -/
def c10oldBoth (v1 v2 : Value) : World :=
  (resolve 50
    (resolve 50 (allOld 50 c10in [.promise 0, .promise 1]).1 1 v2).1
    0 v1).1

/-- C10: newer-module `all` over the two pending inputs, both of which then
fulfill, second first. -/
def c10newBoth (v1 v2 : Value) : World :=
  (resolve 50
    (resolve 50 (allNew 50 c10in [.promise 0, .promise 1]).1 1 v2).1
    0 v1).1

/-! ### The invariant of the newer `all` over `n` pending inputs

In `allSetup n` the inputs are deferreds `0 .. n-1`, the aggregate is
deferred `n`, the when-chain child of input `i` is deferred `n+1+i`, and the
combinator cell is cell `0`. -/

/-- The listener that `all` attaches to input `i`. -/
def allListener (n i : Nat) : Listener :=
  ⟨some (.allResolvedCb 0 i), some (.allRejectedNewCb 0), none, n + 1 + i⟩

/-- An input deferred before its settlement: pending, with exactly the `all`
listener queued. -/
def pendingInputState (n i : Nat) : DefState :=
  { waiting := some [allListener n i] }

/-- An input deferred after `resolve(v)`: fulfilled with `v`, drained, and
`handled` (its resolved callback ran). -/
def settledInputState (v : Value) : DefState :=
  { result := v, fulfilled := true, waiting := none, handled := true }

/-- A when-chain child after its input fulfilled: resolved with `undefined`
(the return value of the `all` closure). -/
def settledChildState : DefState :=
  { fulfilled := true, waiting := none }

/-- The aggregate deferred while inputs are still pending. -/
def pendingAggState : DefState := { canceller := some (.allCanceller 0) }

/-- The aggregate deferred once every input fulfilled: resolved with the
results array in input order. -/
def settledAggState (n : Nat) (vs : Nat → Value) : DefState :=
  { result := .arr ((List.range n).map vs), fulfilled := true, waiting := none,
    canceller := some (.allCanceller 0) }

/-- The `results` array after the inputs listed in `done` have fulfilled. -/
def resultsOf (n : Nat) (vs : Nat → Value) (done : List Nat) : List (Option Value) :=
  (List.range n).map (fun j => if j ∈ done then some (vs j) else none)

/-- The combinator cell after the inputs listed in `done` have fulfilled. -/
def allInvCell (n : Nat) (vs : Nat → Value) (done : List Nat) : AllCell :=
  { promises := some ((List.range n).map (fun i => n + 1 + i))
    results := some (resultsOf n vs done)
    waiting := n - done.length
    fulfilled := decide (done.length = n)
    deferred := n }

/-- The reachable-state invariant of `allSetup n` after the inputs listed in
`done` have been resolved (input `j` with value `vs j`). -/
def AllInv (n : Nat) (vs : Nat → Value) (done : List Nat) (w : World) : Prop :=
  done.Nodup ∧ (∀ j ∈ done, j < n) ∧
  (∀ i, i < n → i ∉ done → w.defs i = pendingInputState n i) ∧
  (∀ i ∈ done, w.defs i = settledInputState (vs i)) ∧
  (∀ i, i < n → i ∉ done → w.defs (n + 1 + i) = {}) ∧
  (∀ i ∈ done, w.defs (n + 1 + i) = settledChildState) ∧
  w.defs n = (if done.length = n then settledAggState n vs else pendingAggState) ∧
  w.allCells 0 = allInvCell n vs done

section WorldLemmas

variable (w : World) (f : DefState → DefState) (g : AllCell → AllCell)
variable (h : SeqCell → SeqCell)

@[simp] theorem updDef_defs_same (d : Nat) :
    (w.updDef d f).defs d = f (w.defs d) := by
  simp [World.updDef]

theorem updDef_defs_ne (d x : Nat) (hx : x ≠ d) :
    (w.updDef d f).defs x = w.defs x := by
  simp [World.updDef, Function.update_noteq hx]

@[simp] theorem updDef_nextDef (d : Nat) : (w.updDef d f).nextDef = w.nextDef := rfl
@[simp] theorem updDef_allCells (d : Nat) : (w.updDef d f).allCells = w.allCells := rfl
@[simp] theorem updDef_nextAll (d : Nat) : (w.updDef d f).nextAll = w.nextAll := rfl
@[simp] theorem updDef_seqCells (d : Nat) : (w.updDef d f).seqCells = w.seqCells := rfl
@[simp] theorem updDef_nextSeq (d : Nat) : (w.updDef d f).nextSeq = w.nextSeq := rfl
@[simp] theorem updDef_trace (d : Nat) : (w.updDef d f).trace = w.trace := rfl
@[simp] theorem updDef_emitted (d : Nat) : (w.updDef d f).emitted = w.emitted := rfl
@[simp] theorem updDef_checks (d : Nat) : (w.updDef d f).checks = w.checks := rfl
@[simp] theorem updDef_timers (d : Nat) : (w.updDef d f).timers = w.timers := rfl

@[simp] theorem updAll_cells_same (c : Nat) :
    (w.updAll c g).allCells c = g (w.allCells c) := by
  simp [World.updAll]

theorem updAll_cells_ne (c x : Nat) (hx : x ≠ c) :
    (w.updAll c g).allCells x = w.allCells x := by
  simp [World.updAll, Function.update_noteq hx]

@[simp] theorem updAll_defs (c : Nat) : (w.updAll c g).defs = w.defs := rfl
@[simp] theorem updAll_nextDef (c : Nat) : (w.updAll c g).nextDef = w.nextDef := rfl
@[simp] theorem updAll_nextAll (c : Nat) : (w.updAll c g).nextAll = w.nextAll := rfl
@[simp] theorem updAll_seqCells (c : Nat) : (w.updAll c g).seqCells = w.seqCells := rfl
@[simp] theorem updAll_trace (c : Nat) : (w.updAll c g).trace = w.trace := rfl
@[simp] theorem updAll_emitted (c : Nat) : (w.updAll c g).emitted = w.emitted := rfl
@[simp] theorem updAll_checks (c : Nat) : (w.updAll c g).checks = w.checks := rfl

@[simp] theorem updSeq_cells_same (c : Nat) :
    (w.updSeq c h).seqCells c = h (w.seqCells c) := by
  simp [World.updSeq]

theorem updSeq_cells_ne (c x : Nat) (hx : x ≠ c) :
    (w.updSeq c h).seqCells x = w.seqCells x := by
  simp [World.updSeq, Function.update_noteq hx]

@[simp] theorem updSeq_defs (c : Nat) : (w.updSeq c h).defs = w.defs := rfl
@[simp] theorem updSeq_nextDef (c : Nat) : (w.updSeq c h).nextDef = w.nextDef := rfl
@[simp] theorem updSeq_allCells (c : Nat) : (w.updSeq c h).allCells = w.allCells := rfl
@[simp] theorem updSeq_trace (c : Nat) : (w.updSeq c h).trace = w.trace := rfl
@[simp] theorem updSeq_emitted (c : Nat) : (w.updSeq c h).emitted = w.emitted := rfl
@[simp] theorem updSeq_checks (c : Nat) : (w.updSeq c h).checks = w.checks := rfl

@[simp] theorem pushTrace_defs (t : Nat × Value) : (w.pushTrace t).defs = w.defs := rfl
@[simp] theorem pushTrace_allCells (t : Nat × Value) : (w.pushTrace t).allCells = w.allCells := rfl
@[simp] theorem pushTrace_seqCells (t : Nat × Value) : (w.pushTrace t).seqCells = w.seqCells := rfl
@[simp] theorem pushTrace_nextDef (t : Nat × Value) : (w.pushTrace t).nextDef = w.nextDef := rfl
@[simp] theorem pushTrace_trace (t : Nat × Value) : (w.pushTrace t).trace = w.trace ++ [t] := rfl
@[simp] theorem pushTrace_emitted (t : Nat × Value) : (w.pushTrace t).emitted = w.emitted := rfl
@[simp] theorem pushTrace_checks (t : Nat × Value) : (w.pushTrace t).checks = w.checks := rfl

@[simp] theorem pushCheck_defs (t : Nat × Value) : (w.pushCheck t).defs = w.defs := rfl
@[simp] theorem pushCheck_allCells (t : Nat × Value) : (w.pushCheck t).allCells = w.allCells := rfl
@[simp] theorem pushCheck_seqCells (t : Nat × Value) : (w.pushCheck t).seqCells = w.seqCells := rfl
@[simp] theorem pushCheck_nextDef (t : Nat × Value) : (w.pushCheck t).nextDef = w.nextDef := rfl
@[simp] theorem pushCheck_trace (t : Nat × Value) : (w.pushCheck t).trace = w.trace := rfl
@[simp] theorem pushCheck_emitted (t : Nat × Value) : (w.pushCheck t).emitted = w.emitted := rfl
@[simp] theorem pushCheck_checks (t : Nat × Value) : (w.pushCheck t).checks = w.checks ++ [t] := rfl

@[simp] theorem freshDef_snd (c : Option Canceller) : (freshDef w c).2 = w.nextDef := rfl
@[simp] theorem freshDef_defs_same (c : Option Canceller) :
    (freshDef w c).1.defs w.nextDef = { canceller := c } := by
  simp [freshDef]
theorem freshDef_defs_ne (c : Option Canceller) (x : Nat) (hx : x ≠ w.nextDef) :
    (freshDef w c).1.defs x = w.defs x := by
  simp [freshDef, Function.update_noteq hx]
@[simp] theorem freshDef_nextDef (c : Option Canceller) :
    (freshDef w c).1.nextDef = w.nextDef + 1 := rfl
@[simp] theorem freshDef_allCells (c : Option Canceller) :
    (freshDef w c).1.allCells = w.allCells := rfl
@[simp] theorem freshDef_seqCells (c : Option Canceller) :
    (freshDef w c).1.seqCells = w.seqCells := rfl
@[simp] theorem freshDef_nextAll (c : Option Canceller) :
    (freshDef w c).1.nextAll = w.nextAll := rfl
@[simp] theorem freshDef_nextSeq (c : Option Canceller) :
    (freshDef w c).1.nextSeq = w.nextSeq := rfl
@[simp] theorem freshDef_trace (c : Option Canceller) :
    (freshDef w c).1.trace = w.trace := rfl
@[simp] theorem freshDef_emitted (c : Option Canceller) :
    (freshDef w c).1.emitted = w.emitted := rfl
@[simp] theorem freshDef_checks (c : Option Canceller) :
    (freshDef w c).1.checks = w.checks := rfl

end WorldLemmas

/-! ### One-step unfolding equations for the interpreter

Each lemma restates, by `rfl`, the `step` branch of one operation, so that
symbolic proofs can unfold exactly the operation they need. -/

section StepLemmas

variable (fuel : Nat) (w : World)

theorem step_resolveO (d : Nat) (v : Value) :
    step (fuel + 1) w (.resolveO d v) = step fuel w (.notifyAllO d v) := rfl

theorem step_rejectO (d : Nat) (e : Value) (ig : Bool) :
    step (fuel + 1) w (.rejectO d e ig) =
      (let w0 := w.updDef d (fun s => { s with isError := true })
       match step fuel w0 (.notifyAllO d e) with
       | (w1, .error ex) => (w1, .error ex)
       | (w1, .ok _) =>
         let h := (w1.defs d).handled
         if !ig && !h then (w1.pushCheck (d, e), .ok (.boolV h))
         else (w1, .ok (.boolV h))) := rfl

theorem step_notifyAllO (d : Nat) (v : Value) :
    step (fuel + 1) w (.notifyAllO d v) =
      (if (w.defs d).fulfilled then (w, .error alreadyResolved)
       else
        let w0 := w.updDef d (fun s => { s with result := v, fulfilled := true })
        match step fuel w0 (.notifyLoopO d 0) with
        | (w1, .ok _) =>
          (w1.updDef d (fun s => { s with waiting := none }), .ok .undef)
        | (w1, .error ex) => (w1, .error ex)) := rfl

theorem step_notifyLoopO (d i : Nat) :
    step (fuel + 1) w (.notifyLoopO d i) =
      (match (w.defs d).waiting with
       | none => (w, .ok .undef)
       | some ws =>
         if h : i < ws.length then
           match step fuel w (.notifyO d (ws.get ⟨i, h⟩)) with
           | (w1, .ok _) => step fuel w1 (.notifyLoopO d (i + 1))
           | (w1, .error ex) => (w1, .error ex)
         else (w, .ok .undef)) := rfl

theorem step_notifyO (d : Nat) (l : Listener) :
    step (fuel + 1) w (.notifyO d l) =
      (let st := w.defs d
       match (if st.isError then l.onError else l.onResolved) with
       | some func =>
         let w0 := w.updDef d (fun s => { s with handled := true })
         match step fuel w0 (.runLCO func st.result) with
         | (w1, .error e) =>
           match step fuel w1 (.rejectO l.deferred e false) with
           | (w2, .ok _) => (w2, .ok .undef)
           | (w2, .error ex) => (w2, .error ex)
         | (w1, .ok newResult) =>
           match newResult with
           | .promise q =>
             match step fuel w1 (.thenO q (some (.resolveOf l.deferred))
                 (some (.rejectOf l.deferred)) none) with
             | (w2, .ok _) => (w2, .ok .undef)
             | (w2, .error e) =>
               match step fuel w2 (.rejectO l.deferred e false) with
               | (w3, .ok _) => (w3, .ok .undef)
               | (w3, .error ex) => (w3, .error ex)
           | nr =>
             match step fuel w1 (.resolveO l.deferred nr) with
             | (w2, .ok _) => (w2, .ok .undef)
             | (w2, .error e) =>
               match step fuel w2 (.rejectO l.deferred e false) with
               | (w3, .ok _) => (w3, .ok .undef)
               | (w3, .error ex) => (w3, .error ex)
       | none =>
         if st.isError then
           match step fuel w (.rejectO l.deferred st.result true) with
           | (w1, .ok hv) =>
             (w1.updDef d (fun s => { s with handled := asBool hv }), .ok .undef)
           | (w1, .error ex) => (w1, .error ex)
         else
           match step fuel w (.resolveO l.deferred st.result) with
           | (w1, .ok _) => (w1, .ok .undef)
           | (w1, .error ex) => (w1, .error ex)) := rfl

theorem step_thenO (d : Nat) (rc ec pc : Option LCallback) :
    step (fuel + 1) w (.thenO d rc ec pc) =
      (let childCanceller : Option Canceller :=
        if (w.defs d).canceller.isSome then some (.cancelOf d) else none
       let p := freshDef w childCanceller
       let l : Listener := ⟨rc, ec, pc, p.2⟩
       let st := p.1.defs d
       if st.fulfilled && st.waiting.isNone then
         match step fuel p.1 (.notifyO d l) with
         | (w2, .ok _) => (w2, .ok (.promise p.2))
         | (w2, .error ex) => (w2, .error ex)
       else
         (p.1.updDef d (fun s => { s with waiting := s.waiting.map (· ++ [l]) }),
          .ok (.promise p.2))) := rfl

theorem step_cancelO (d : Nat) (reason : Value) :
    step (fuel + 1) w (.cancelO d reason) =
      (match (w.defs d).canceller with
       | none => (w, .error typeError)
       | some c =>
         if (w.defs d).fulfilled then (w, .ok .undef)
         else
           match step fuel w (.runCancellerO c reason) with
           | (w1, .error ex) => (w1, .error ex)
           | (w1, .ok ret) =>
             let err := if isUndef ret then Value.cancelError else ret
             if (w1.defs d).fulfilled then (w1, .ok .undef)
             else
               match step fuel w1 (.rejectO d err false) with
               | (w2, .ok _) => (w2, .ok .undef)
               | (w2, .error ex) => (w2, .error ex)) := rfl

theorem step_runCancellerO_user (f : Value → Value) (reason : Value) :
    step (fuel + 1) w (.runCancellerO (.user f) reason) = (w, .ok (f reason)) := rfl

theorem step_runCancellerO_cancelOf (d : Nat) (reason : Value) :
    step (fuel + 1) w (.runCancellerO (.cancelOf d) reason) =
      (match step fuel w (.cancelO d reason) with
       | (w1, .ok _) => (w1, .ok .undef)
       | (w1, .error ex) => (w1, .error ex)) := rfl

theorem step_runCancellerO_all (cell : Nat) (reason : Value) :
    step (fuel + 1) w (.runCancellerO (.allCanceller cell) reason) =
      (match (w.allCells cell).promises with
       | none => (w, .error typeError)
       | some ps =>
         match step fuel w (.cancelListO ps) with
         | (w1, .ok _) =>
           (w1.updAll cell (fun s => { s with promises := none, results := none }),
            .ok .undef)
         | (w1, .error ex) => (w1, .error ex)) := rfl

theorem step_runCancellerO_seq (cell : Nat) (reason : Value) :
    step (fuel + 1) w (.runCancellerO (.seqCanceller cell) reason) =
      (w.updSeq cell (fun s => { s with cancelled := true, remaining := none }),
       .ok .undef) := rfl

theorem step_cancelListO_nil :
    step (fuel + 1) w (.cancelListO []) = (w, .ok .undef) := rfl

theorem step_cancelListO_cons (p : Nat) (rest : List Nat) :
    step (fuel + 1) w (.cancelListO (p :: rest)) =
      (if (w.defs p).canceller.isSome then
        match step fuel w (.cancelO p .undef) with
        | (w1, .ok _) => step fuel w1 (.cancelListO rest)
        | (w1, .error ex) => (w1, .error ex)
       else step fuel w (.cancelListO rest)) := rfl

theorem step_runLCO_user (tag : Nat) (f : UserCb) (arg : Value) :
    step (fuel + 1) w (.runLCO (.user tag f) arg) =
      (w.pushTrace (tag, arg), f.run arg) := rfl

theorem step_runLCO_resolveOf (d : Nat) (arg : Value) :
    step (fuel + 1) w (.runLCO (.resolveOf d) arg) =
      (match step fuel w (.resolveO d arg) with
       | (w1, .ok _) => (w1, .ok .undef)
       | (w1, .error ex) => (w1, .error ex)) := rfl

theorem step_runLCO_rejectOf (d : Nat) (arg : Value) :
    step (fuel + 1) w (.runLCO (.rejectOf d) arg) =
      step fuel w (.rejectO d arg false) := rfl

theorem step_runLCO_allResolved (cell idx : Nat) (arg : Value) :
    step (fuel + 1) w (.runLCO (.allResolvedCb cell idx) arg) =
      (let c := w.allCells cell
       if c.fulfilled then (w, .ok .undef)
       else
         match c.results with
         | none => (w, .error typeError)
         | some rs =>
           let rs1 := rs.set idx (some arg)
           let w1 := w.updAll cell
             (fun s => { s with results := some rs1, waiting := s.waiting - 1 })
           if c.waiting - 1 = 0 then
             let w2 := w1.updAll cell (fun s => { s with fulfilled := true })
             match step fuel w2 (.resolveO c.deferred
                 (.arr (rs1.map (fun r => r.getD .undef)))) with
             | (w3, .ok _) => (w3, .ok .undef)
             | (w3, .error ex) => (w3, .error ex)
           else (w1, .ok .undef)) := rfl

theorem step_runLCO_allRejectedNew (cell : Nat) (arg : Value) :
    step (fuel + 1) w (.runLCO (.allRejectedNewCb cell) arg) =
      (let c := w.allCells cell
       if c.fulfilled then (w, .ok .undef)
       else
         let w1 := w.updAll cell (fun s => { s with fulfilled := true })
         match step fuel w1 (.rejectO c.deferred arg false) with
         | (w2, .ok _) => (w2, .ok .undef)
         | (w2, .error ex) => (w2, .error ex)) := rfl

theorem step_runLCO_allRejectedOld (cell : Nat) (arg : Value) :
    step (fuel + 1) w (.runLCO (.allRejectedOldCb cell) arg) =
      (let c := w.allCells cell
       if c.fulfilled then (w, .ok .undef)
       else
         match step fuel w (.rejectO c.deferred arg false) with
         | (w2, .ok _) => (w2, .ok .undef)
         | (w2, .error ex) => (w2, .error ex)) := rfl

theorem step_runLCO_seqNext (cell : Nat) (arg : Value) :
    step (fuel + 1) w (.runLCO (.seqNextCb cell) arg) =
      step fuel w (.seqNextO cell arg) := rfl

theorem step_seqNextO (cell : Nat) (value : Value) :
    step (fuel + 1) w (.seqNextO cell value) =
      (let c := w.seqCells cell
       if c.cancelled then (w, .ok .undef)
       else
         match c.remaining with
         | none => (w, .error typeError)
         | some [] =>
           match step fuel w (.resolveO c.deferred value) with
           | (w1, .ok _) => (w1, .ok .undef)
           | (w1, .error ex) => (w1, .error ex)
         | some ((tag, act) :: rest) =>
           let w1 := w.updSeq cell (fun s => { s with remaining := some rest })
           let w2 := w1.pushTrace (tag, value)
           match act.run value with
           | .error e =>
             match step fuel w2 (.rejectO c.deferred e false) with
             | (w3, .ok _) => (w3, .ok .undef)
             | (w3, .error ex) => (w3, .error ex)
           | .ok r =>
             match step fuel w2 (.whenO r (some (.seqNextCb cell))
                 (some (.rejectOf c.deferred)) none) with
             | (w3, .ok _) => (w3, .ok .undef)
             | (w3, .error e) =>
               match step fuel w3 (.rejectO c.deferred e false) with
               | (w4, .ok _) => (w4, .ok .undef)
               | (w4, .error ex) => (w4, .error ex)) := rfl

theorem step_whenO (v : Value) (rc ec pc : Option LCallback) :
    step (fuel + 1) w (.whenO v rc ec pc) =
      (match v with
       | .promise d => step fuel w (.thenO d rc ec pc)
       | v =>
         match step fuel w (.resolvedO v) with
         | (w1, .ok (.promise d)) => step fuel w1 (.thenO d rc ec pc)
         | (w1, .ok _) => (w1, .error fuelOut)
         | (w1, .error ex) => (w1, .error ex)) := rfl

theorem step_resolvedO (v : Value) :
    step (fuel + 1) w (.resolvedO v) =
      (let p := freshDef w none
       match step fuel p.1 (.resolveO p.2 v) with
       | (w2, .ok _) => (w2, .ok (.promise p.2))
       | (w2, .error ex) => (w2, .error ex)) := rfl

theorem step_rejectedO (e : Value) :
    step (fuel + 1) w (.rejectedO e) =
      (let p := freshDef w none
       match step fuel p.1 (.rejectO p.2 e false) with
       | (w2, .ok _) => (w2, .ok (.promise p.2))
       | (w2, .error ex) => (w2, .error ex)) := rfl

theorem step_progressLoopO (d i : Nat) (update : Value) :
    step (fuel + 1) w (.progressLoopO d i update) =
      (match (w.defs d).waiting with
       | none => (w, .error typeError)
       | some ws =>
         if h : i < ws.length then
           match (ws.get ⟨i, h⟩).onProgress with
           | some p =>
             match step fuel w (.runLCO p update) with
             | (w1, .ok _) => step fuel w1 (.progressLoopO d (i + 1) update)
             | (w1, .error ex) => (w1, .error ex)
           | none => step fuel w (.progressLoopO d (i + 1) update)
         else (w, .ok .undef)) := rfl

end StepLemmas

/-! ### Settlement drains the waiting list -/

/-- A `notifyAll` that returns normally has set `waiting` to `null`. -/
theorem step_ok_waiting_none (fuel : Nat) (w : World) (d : Nat) (v : Value)
    (w1 : World) (r : Value)
    (h : step fuel w (.notifyAllO d v) = (w1, .ok r)) :
    (w1.defs d).waiting = none := by
  match fuel with
  | 0 => simp [step] at h
  | fuel + 1 =>
    rw [step_notifyAllO] at h
    by_cases hf : (w.defs d).fulfilled = true
    · simp [hf] at h
    · simp only [Bool.not_eq_true] at hf
      simp only [hf, Bool.false_eq_true, if_false] at h
      rcases hs : step fuel
          (w.updDef d fun s => { s with result := v, fulfilled := true })
          (.notifyLoopO d 0) with ⟨w2, r2⟩
      rw [hs] at h
      cases r2 with
      | error ex => simp at h
      | ok rv =>
        cases h
        simp

/-- A `reject` that returns normally leaves `waiting = null` on the
deferred. -/
theorem step_reject_ok_waiting_none (fuel : Nat) (w : World) (d : Nat)
    (e : Value) (ig : Bool) (w1 : World) (r : Value)
    (h : step fuel w (.rejectO d e ig) = (w1, .ok r)) :
    (w1.defs d).waiting = none := by
  match fuel with
  | 0 => simp [step] at h
  | fuel + 1 =>
    simp only [step_rejectO] at h
    rcases hs : step fuel (w.updDef d fun s => { s with isError := true })
        (.notifyAllO d e) with ⟨w2, r2⟩
    rw [hs] at h
    cases r2 with
    | error ex => simp at h
    | ok rv =>
      have hw : (w2.defs d).waiting = none :=
        step_ok_waiting_none fuel _ d e w2 rv hs
      simp only at h
      split at h <;> cases h <;> simpa using hw

/-- A `resolve` that returns normally leaves `waiting = null` on the
deferred. -/
theorem step_resolve_ok_waiting_none (fuel : Nat) (w : World) (d : Nat)
    (v : Value) (w1 : World) (r : Value)
    (h : step fuel w (.resolveO d v) = (w1, .ok r)) :
    (w1.defs d).waiting = none := by
  match fuel with
  | 0 => simp [step] at h
  | fuel + 1 =>
    rw [step_resolveO] at h
    exact step_ok_waiting_none fuel w d v w1 r h


/-! ### Generic execution lemmas -/

/-- Reading a deferred state through an update. -/
theorem updDef_defs (w : World) (d : Nat) (f : DefState → DefState) (x : Nat) :
    (w.updDef d f).defs x = if x = d then f (w.defs d) else w.defs x := by
  by_cases h : x = d
  · subst h; simp
  · simp [updDef_defs_ne _ _ _ _ h, h]

/-- A list of distinct naturals all below `n` has at most `n` elements. -/
theorem nodup_sub_length (l : List Nat) (n : Nat) (hnd : l.Nodup)
    (hsub : ∀ j ∈ l, j < n) : l.length ≤ n := by
  classical
  have h1 : l.toFinset.card = l.length := List.toFinset_card_of_nodup hnd
  have h2 : l.toFinset ⊆ Finset.range n := by
    intro x hx
    exact Finset.mem_range.2 (hsub x (List.mem_toFinset.1 hx))
  have h3 := Finset.card_le_card h2
  rw [h1, Finset.card_range] at h3
  exact h3

/-- A list of `n` distinct naturals all below `n` contains every natural
below `n`. -/
theorem nodup_sub_full (l : List Nat) (n : Nat) (hnd : l.Nodup)
    (hsub : ∀ j ∈ l, j < n) (hlen : l.length = n) :
    ∀ j, j < n → j ∈ l := by
  classical
  have h2 : l.toFinset ⊆ Finset.range n := by
    intro x hx
    exact Finset.mem_range.2 (hsub x (List.mem_toFinset.1 hx))
  have hcard : l.toFinset.card = n := by
    rw [List.toFinset_card_of_nodup hnd, hlen]
  have heq : l.toFinset = Finset.range n :=
    Finset.eq_of_subset_of_card_le h2 (by simp [hcard])
  intro j hj
  have : j ∈ l.toFinset := heq ▸ Finset.mem_range.2 hj
  exact List.mem_toFinset.1 this

/-- Storing input `i`'s value into the results array settles slot `i`. -/
theorem resultsOf_set (n : Nat) (vs : Nat → Value) (done : List Nat) (i : Nat) :
    (resultsOf n vs done).set i (some (vs i)) = resultsOf n vs (done ++ [i]) := by
  apply List.ext_getElem
  · simp [resultsOf]
  · intro j hj1 hj2
    simp only [resultsOf, List.length_map, List.length_range] at hj1 hj2 ⊢
    simp only [List.getElem_set, List.getElem_map, List.getElem_range]
    by_cases h : i = j
    · subst h
      simp
    · simp [h, List.mem_append, Ne.symm h]

/-- Once every slot is settled, reading the results array gives the values
in input order. -/
theorem resultsOf_complete (n : Nat) (vs : Nat → Value) (done : List Nat)
    (h : ∀ j, j < n → j ∈ done) :
    (resultsOf n vs done).map (fun r => r.getD .undef) = (List.range n).map vs := by
  simp only [resultsOf, List.map_map]
  apply List.map_congr_left
  intro j hj
  simp [h j (List.mem_range.1 hj)]

/-- `notifyAll` on a pending deferred: record the result, then run the
notification loop and null out `waiting`. -/
theorem notifyAll_pending (fuel : Nat) (w : World) (d : Nat) (v : Value)
    (h : (w.defs d).fulfilled = false) :
    step (fuel + 1) w (.notifyAllO d v) =
      (match step fuel (w.updDef d fun s => { s with result := v, fulfilled := true })
          (.notifyLoopO d 0) with
       | (w1, .ok _) => (w1.updDef d fun s => { s with waiting := none }, .ok .undef)
       | (w1, .error ex) => (w1, .error ex)) := by
  rw [step_notifyAllO, if_neg (by simp [h])]

/-- The notification loop over an empty waiting list does nothing. -/
theorem notifyLoop_empty (fuel : Nat) (w : World) (d : Nat)
    (h : (w.defs d).waiting = some []) :
    step (fuel + 1) w (.notifyLoopO d 0) = (w, .ok .undef) := by
  rw [step_notifyLoopO, h]
  simp

/-- The notification loop over a single listener notifies it and stops
(provided the notification left the listener queue unchanged). -/
theorem notifyLoop_single (fuel : Nat) (w : World) (d : Nat) (l : Listener)
    (w1 : World) (r : Value)
    (h : (w.defs d).waiting = some [l])
    (hstep : step (fuel + 1) w (.notifyO d l) = (w1, .ok r))
    (h1 : (w1.defs d).waiting = some [l]) :
    step (fuel + 2) w (.notifyLoopO d 0) = (w1, .ok .undef) := by
  rw [step_notifyLoopO, h]
  simp only [List.length_singleton, Nat.zero_lt_one, dite_true, List.get]
  rw [hstep]
  dsimp only
  rw [step_notifyLoopO, h1]
  simp

/-- `notify` of a fulfilled deferred whose listener has a resolved callback
returning a non-thenable: run the callback (it sets `handled` first), then
resolve the downstream deferred with the returned value. -/
theorem notify_resolved_run (fuel : Nat) (w : World) (d : Nat) (l : Listener)
    (cb : LCallback) (hisErr : (w.defs d).isError = false)
    (hfunc : l.onResolved = some cb)
    (w1 : World) (nr : Value)
    (hrun : step fuel (w.updDef d fun s => { s with handled := true })
        (.runLCO cb ((w.defs d).result)) = (w1, .ok nr))
    (hnr : isThenable nr = false)
    (w2 : World) (r2 : Value)
    (hres : step fuel w1 (.resolveO l.deferred nr) = (w2, .ok r2)) :
    step (fuel + 1) w (.notifyO d l) = (w2, .ok .undef) := by
  rw [step_notifyO]
  simp only [hisErr, Bool.false_eq_true, if_false, hfunc]
  rw [hrun]
  dsimp only
  cases nr
  case promise q => simp [isThenable] at hnr
  all_goals (dsimp only; rw [hres])

/-- Resolving a pending deferred with no listeners just records the value
and drains. -/
theorem resolve_pending_empty (fuel : Nat) (w : World) (d : Nat) (v : Value)
    (hf : (w.defs d).fulfilled = false) (hw : (w.defs d).waiting = some []) :
    step (fuel + 3) w (.resolveO d v) =
      ((w.updDef d (fun s => { s with result := v, fulfilled := true })).updDef d
         (fun s => { s with waiting := none }), .ok .undef) := by
  rw [step_resolveO, notifyAll_pending _ _ _ _ hf]
  rw [notifyLoop_empty fuel _ d (by simp [updDef_defs, hw])]

/-- The `all` fulfillment closure on a not-yet-settled cell: store the
result, decrement `waiting`, and if this was the last input, mark the cell
fulfilled and resolve the aggregate with the results array. -/
theorem runLC_allResolved_spec (fuel : Nat) (w : World) (cell idx : Nat)
    (arg : Value) (c : AllCell) (hc : w.allCells cell = c)
    (hful : c.fulfilled = false)
    (rs : List (Option Value)) (hres : c.results = some rs) :
    step (fuel + 1) w (.runLCO (.allResolvedCb cell idx) arg) =
      (if c.waiting - 1 = 0 then
         match step fuel
             ((w.updAll cell (fun s => { s with
                 results := some (rs.set idx (some arg)),
                 waiting := s.waiting - 1 })).updAll cell
               (fun s => { s with fulfilled := true }))
             (.resolveO c.deferred
               (.arr ((rs.set idx (some arg)).map (fun r => r.getD .undef)))) with
         | (w3, .ok _) => (w3, .ok .undef)
         | (w3, .error ex) => (w3, .error ex)
       else (w.updAll cell (fun s => { s with
               results := some (rs.set idx (some arg)),
               waiting := s.waiting - 1 }), .ok .undef)) := by
  rw [step_runLCO_allResolved, hc]
  simp only [hful, Bool.false_eq_true, if_false, hres]

/-! ### Executing one settlement step of the newer `all` -/

set_option maxHeartbeats 2000000 in
theorem allSettle_step (n : Nat) (vs : Nat → Value) (done : List Nat) (i : Nat)
    (w : World) (hInv : AllInv n vs done w) (hi : i < n) (hni : i ∉ done) :
    (resolve 20 w i (vs i)).2 = .ok () ∧
    AllInv n vs (done ++ [i]) (resolve 20 w i (vs i)).1 := by
  obtain ⟨hnd, hsub, hpend, hsett, hchp, hchs, hagg, hcell⟩ := hInv
  have hnd' : (done ++ [i]).Nodup := by
    rw [List.nodup_append]
    refine ⟨hnd, List.nodup_singleton i, ?_⟩
    intro a ha hai
    rw [List.mem_singleton] at hai
    subst hai
    exact hni ha
  have hsub' : ∀ j ∈ done ++ [i], j < n := by
    intro j hj
    rcases List.mem_append.1 hj with hjj | hjj
    · exact hsub j hjj
    · rw [List.mem_singleton] at hjj; omega
  have hlen1 : (done ++ [i]).length ≤ n := nodup_sub_length _ n hnd' hsub'
  have hlen : done.length < n := by simp at hlen1; omega
  have hin : w.defs i = pendingInputState n i := hpend i hi hni
  have hch0 : w.defs (n + 1 + i) = {} := hchp i hi hni
  have haggP : w.defs n = pendingAggState := by rw [hagg, if_neg (by omega)]
  have hnei : ¬(n + 1 + i = i) := by omega
  have hnen : ¬(n + 1 + i = n) := by omega
  have hine : ¬(i = n) := by omega
  have hien : ¬(i = n + 1 + i) := by omega
  have hnn : ¬(n = i) := by omega
  have hIf : (w.defs i).fulfilled = false := by simp [hin, pendingInputState]
  have hAw : (((w.updDef i (fun s => { s with result := vs i, fulfilled := true }))).defs i).waiting = some [allListener n i] := by
    simp [updDef_defs, hin, pendingInputState]
  have hAisErr : (((w.updDef i (fun s => { s with result := vs i, fulfilled := true }))).defs i).isError = false := by
    simp [updDef_defs, hin, pendingInputState]
  have hAres : (((w.updDef i (fun s => { s with result := vs i, fulfilled := true }))).defs i).result = vs i := by
    simp [updDef_defs, hin, pendingInputState]
  have hBcell : ((((w.updDef i (fun s => { s with result := vs i, fulfilled := true })).updDef i (fun s => { s with handled := true }))).allCells 0) = allInvCell n vs done := by
    simp [hcell]
  have hcful : (allInvCell n vs done).fulfilled = false := by
    simp only [allInvCell]
    simp only [decide_eq_false_iff_not]
    omega
  by_cases hlast : done.length + 1 = n
  · have hcover : ∀ j, j < n → j ∈ done ++ [i] :=
      nodup_sub_full _ n hnd' hsub' (by simp; omega)
    have hmapres : (resultsOf n vs (done ++ [i])).map (fun r => r.getD .undef)
        = (List.range n).map vs := resultsOf_complete n vs _ hcover
    have haggF : ((((((w.updDef i (fun s => { s with result := vs i, fulfilled := true })).updDef i (fun s => { s with handled := true })).updAll 0 (fun s => { s with results := some (resultsOf n vs (done ++ [i])), waiting := s.waiting - 1 })).updAll 0 (fun s => { s with fulfilled := true }))).defs n).fulfilled = false := by
      simp [updDef_defs, hnn, haggP, pendingAggState]
    have haggW : ((((((w.updDef i (fun s => { s with result := vs i, fulfilled := true })).updDef i (fun s => { s with handled := true })).updAll 0 (fun s => { s with results := some (resultsOf n vs (done ++ [i])), waiting := s.waiting - 1 })).updAll 0 (fun s => { s with fulfilled := true }))).defs n).waiting = some [] := by
      simp [updDef_defs, hnn, haggP, pendingAggState]
    have haggRes : step 15 ((((w.updDef i (fun s => { s with result := vs i, fulfilled := true })).updDef i (fun s => { s with handled := true })).updAll 0 (fun s => { s with results := some (resultsOf n vs (done ++ [i])), waiting := s.waiting - 1 })).updAll 0 (fun s => { s with fulfilled := true })) (.resolveO n (Value.arr ((List.range n).map vs))) = (((((((w.updDef i (fun s => { s with result := vs i, fulfilled := true })).updDef i (fun s => { s with handled := true })).updAll 0 (fun s => { s with results := some (resultsOf n vs (done ++ [i])), waiting := s.waiting - 1 })).updAll 0 (fun s => { s with fulfilled := true })).updDef n (fun s => { s with result := (Value.arr ((List.range n).map vs)), fulfilled := true })).updDef n (fun s => { s with waiting := none })), .ok .undef) :=
      resolve_pending_empty 12 _ n (Value.arr ((List.range n).map vs)) haggF haggW
    have hrunLC : step 16 ((w.updDef i (fun s => { s with result := vs i, fulfilled := true })).updDef i (fun s => { s with handled := true })) (.runLCO (.allResolvedCb 0 i) (vs i)) = (((((((w.updDef i (fun s => { s with result := vs i, fulfilled := true })).updDef i (fun s => { s with handled := true })).updAll 0 (fun s => { s with results := some (resultsOf n vs (done ++ [i])), waiting := s.waiting - 1 })).updAll 0 (fun s => { s with fulfilled := true })).updDef n (fun s => { s with result := (Value.arr ((List.range n).map vs)), fulfilled := true })).updDef n (fun s => { s with waiting := none })), .ok .undef) := by
      rw [runLC_allResolved_spec 15 _ 0 i (vs i) (allInvCell n vs done) hBcell hcful
        (resultsOf n vs done) rfl]
      rw [resultsOf_set, hmapres]
      dsimp only [allInvCell]
      rw [if_pos (by omega : n - done.length - 1 = 0)]
      rw [haggRes]
    have hchF : ((((((((w.updDef i (fun s => { s with result := vs i, fulfilled := true })).updDef i (fun s => { s with handled := true })).updAll 0 (fun s => { s with results := some (resultsOf n vs (done ++ [i])), waiting := s.waiting - 1 })).updAll 0 (fun s => { s with fulfilled := true })).updDef n (fun s => { s with result := (Value.arr ((List.range n).map vs)), fulfilled := true })).updDef n (fun s => { s with waiting := none }))).defs (n + 1 + i)).fulfilled = false := by
      simp [updDef_defs, hnei, hnen, hch0]
    have hchW : ((((((((w.updDef i (fun s => { s with result := vs i, fulfilled := true })).updDef i (fun s => { s with handled := true })).updAll 0 (fun s => { s with results := some (resultsOf n vs (done ++ [i])), waiting := s.waiting - 1 })).updAll 0 (fun s => { s with fulfilled := true })).updDef n (fun s => { s with result := (Value.arr ((List.range n).map vs)), fulfilled := true })).updDef n (fun s => { s with waiting := none }))).defs (n + 1 + i)).waiting = some [] := by
      simp [updDef_defs, hnei, hnen, hch0]
    have hchild : step 16 ((((((w.updDef i (fun s => { s with result := vs i, fulfilled := true })).updDef i (fun s => { s with handled := true })).updAll 0 (fun s => { s with results := some (resultsOf n vs (done ++ [i])), waiting := s.waiting - 1 })).updAll 0 (fun s => { s with fulfilled := true })).updDef n (fun s => { s with result := (Value.arr ((List.range n).map vs)), fulfilled := true })).updDef n (fun s => { s with waiting := none })) (.resolveO (n + 1 + i) Value.undef) = (((((((((w.updDef i (fun s => { s with result := vs i, fulfilled := true })).updDef i (fun s => { s with handled := true })).updAll 0 (fun s => { s with results := some (resultsOf n vs (done ++ [i])), waiting := s.waiting - 1 })).updAll 0 (fun s => { s with fulfilled := true })).updDef n (fun s => { s with result := (Value.arr ((List.range n).map vs)), fulfilled := true })).updDef n (fun s => { s with waiting := none })).updDef (n + 1 + i) (fun s => { s with result := Value.undef, fulfilled := true })).updDef (n + 1 + i) (fun s => { s with waiting := none })), .ok .undef) :=
      resolve_pending_empty 13 _ (n + 1 + i) Value.undef hchF hchW
    have hnotify : step 17 (w.updDef i (fun s => { s with result := vs i, fulfilled := true })) (.notifyO i (allListener n i)) = (((((((((w.updDef i (fun s => { s with result := vs i, fulfilled := true })).updDef i (fun s => { s with handled := true })).updAll 0 (fun s => { s with results := some (resultsOf n vs (done ++ [i])), waiting := s.waiting - 1 })).updAll 0 (fun s => { s with fulfilled := true })).updDef n (fun s => { s with result := (Value.arr ((List.range n).map vs)), fulfilled := true })).updDef n (fun s => { s with waiting := none })).updDef (n + 1 + i) (fun s => { s with result := Value.undef, fulfilled := true })).updDef (n + 1 + i) (fun s => { s with waiting := none })), .ok .undef) := by
      refine notify_resolved_run 16 (w.updDef i (fun s => { s with result := vs i, fulfilled := true })) i (allListener n i) (.allResolvedCb 0 i)
        hAisErr rfl ((((((w.updDef i (fun s => { s with result := vs i, fulfilled := true })).updDef i (fun s => { s with handled := true })).updAll 0 (fun s => { s with results := some (resultsOf n vs (done ++ [i])), waiting := s.waiting - 1 })).updAll 0 (fun s => { s with fulfilled := true })).updDef n (fun s => { s with result := (Value.arr ((List.range n).map vs)), fulfilled := true })).updDef n (fun s => { s with waiting := none })) Value.undef ?_ rfl ((((((((w.updDef i (fun s => { s with result := vs i, fulfilled := true })).updDef i (fun s => { s with handled := true })).updAll 0 (fun s => { s with results := some (resultsOf n vs (done ++ [i])), waiting := s.waiting - 1 })).updAll 0 (fun s => { s with fulfilled := true })).updDef n (fun s => { s with result := (Value.arr ((List.range n).map vs)), fulfilled := true })).updDef n (fun s => { s with waiting := none })).updDef (n + 1 + i) (fun s => { s with result := Value.undef, fulfilled := true })).updDef (n + 1 + i) (fun s => { s with waiting := none })) Value.undef hchild
      rw [hAres]
      exact hrunLC
    have hEw : ((((((((((w.updDef i (fun s => { s with result := vs i, fulfilled := true })).updDef i (fun s => { s with handled := true })).updAll 0 (fun s => { s with results := some (resultsOf n vs (done ++ [i])), waiting := s.waiting - 1 })).updAll 0 (fun s => { s with fulfilled := true })).updDef n (fun s => { s with result := (Value.arr ((List.range n).map vs)), fulfilled := true })).updDef n (fun s => { s with waiting := none })).updDef (n + 1 + i) (fun s => { s with result := Value.undef, fulfilled := true })).updDef (n + 1 + i) (fun s => { s with waiting := none }))).defs i).waiting = some [allListener n i] := by
      simp [updDef_defs, hien, hine, hin, pendingInputState]
    have hloop : step 18 (w.updDef i (fun s => { s with result := vs i, fulfilled := true })) (.notifyLoopO i 0) = (((((((((w.updDef i (fun s => { s with result := vs i, fulfilled := true })).updDef i (fun s => { s with handled := true })).updAll 0 (fun s => { s with results := some (resultsOf n vs (done ++ [i])), waiting := s.waiting - 1 })).updAll 0 (fun s => { s with fulfilled := true })).updDef n (fun s => { s with result := (Value.arr ((List.range n).map vs)), fulfilled := true })).updDef n (fun s => { s with waiting := none })).updDef (n + 1 + i) (fun s => { s with result := Value.undef, fulfilled := true })).updDef (n + 1 + i) (fun s => { s with waiting := none })), .ok .undef) :=
      notifyLoop_single 16 (w.updDef i (fun s => { s with result := vs i, fulfilled := true })) i (allListener n i) ((((((((w.updDef i (fun s => { s with result := vs i, fulfilled := true })).updDef i (fun s => { s with handled := true })).updAll 0 (fun s => { s with results := some (resultsOf n vs (done ++ [i])), waiting := s.waiting - 1 })).updAll 0 (fun s => { s with fulfilled := true })).updDef n (fun s => { s with result := (Value.arr ((List.range n).map vs)), fulfilled := true })).updDef n (fun s => { s with waiting := none })).updDef (n + 1 + i) (fun s => { s with result := Value.undef, fulfilled := true })).updDef (n + 1 + i) (fun s => { s with waiting := none })) Value.undef hAw hnotify hEw
    have hall : step 19 w (.notifyAllO i (vs i)) = ((((((((((w.updDef i (fun s => { s with result := vs i, fulfilled := true })).updDef i (fun s => { s with handled := true })).updAll 0 (fun s => { s with results := some (resultsOf n vs (done ++ [i])), waiting := s.waiting - 1 })).updAll 0 (fun s => { s with fulfilled := true })).updDef n (fun s => { s with result := (Value.arr ((List.range n).map vs)), fulfilled := true })).updDef n (fun s => { s with waiting := none })).updDef (n + 1 + i) (fun s => { s with result := Value.undef, fulfilled := true })).updDef (n + 1 + i) (fun s => { s with waiting := none })).updDef i (fun s => { s with waiting := none })), .ok .undef) := by
      rw [notifyAll_pending 18 w i (vs i) hIf]
      rw [hloop]
    have hfinal : resolve 20 w i (vs i) = ((((((((((w.updDef i (fun s => { s with result := vs i, fulfilled := true })).updDef i (fun s => { s with handled := true })).updAll 0 (fun s => { s with results := some (resultsOf n vs (done ++ [i])), waiting := s.waiting - 1 })).updAll 0 (fun s => { s with fulfilled := true })).updDef n (fun s => { s with result := (Value.arr ((List.range n).map vs)), fulfilled := true })).updDef n (fun s => { s with waiting := none })).updDef (n + 1 + i) (fun s => { s with result := Value.undef, fulfilled := true })).updDef (n + 1 + i) (fun s => { s with waiting := none })).updDef i (fun s => { s with waiting := none })), .ok ()) := by
      simp only [resolve, step_resolveO]
      rw [hall]
      rfl
    rw [hfinal]
    dsimp only
    refine ⟨rfl, hnd', hsub', ?_, ?_, ?_, ?_, ?_, ?_⟩
    · intro j hj hjmem
      have hj1 : ¬(j = i) := fun h =>
        hjmem (by rw [h]; exact List.mem_append_right _ (List.mem_singleton_self i))
      have hj2 : ¬(j = n + 1 + i) := by omega
      have hj3 : ¬(j = n) := by
        intro h
        exact absurd hj (by omega)
      simp [updDef_defs, hj1, hj2, hj3]
      exact hpend j hj (fun hmem => hjmem (List.mem_append_left _ hmem))
    · intro j hjmem
      rcases List.mem_append.1 hjmem with hjd | hji
      · have hj1 : ¬(j = i) := fun h => hni (by rw [← h]; exact hjd)
        have hj2 : ¬(j = n + 1 + i) := by have := hsub j hjd; omega
        have hj3 : ¬(j = n) := by have := hsub j hjd; omega
        simp [updDef_defs, hj1, hj2, hj3]
        exact hsett j hjd
      · rw [List.mem_singleton] at hji
        subst hji
        simp [updDef_defs, hien, hine, hin, pendingInputState, settledInputState]
    · intro j hj hjmem
      have hj1 : ¬(n + 1 + j = i) := by omega
      have hj2 : ¬(n + 1 + j = n + 1 + i) := by
        intro h
        have hjei : j = i := by omega
        exact hjmem (by rw [hjei]; exact List.mem_append_right _ (List.mem_singleton_self i))
      have hj3 : ¬(n + 1 + j = n) := by omega
      simp [updDef_defs, hj1, hj2, hj3]
      exact hchp j hj (fun hmem => hjmem (List.mem_append_left _ hmem))
    · intro j hjmem
      rcases List.mem_append.1 hjmem with hjd | hji
      · have hj1 : ¬(n + 1 + j = i) := by have := hsub j hjd; omega
        have hj2 : ¬(n + 1 + j = n + 1 + i) := by
          intro h
          have hjei : j = i := by omega
          exact hni (by rw [← hjei]; exact hjd)
        have hj3 : ¬(n + 1 + j = n) := by omega
        simp [updDef_defs, hj1, hj2, hj3]
        exact hchs j hjd
      · rw [List.mem_singleton] at hji
        subst hji
        simp [updDef_defs, hnei, hnen, hch0, settledChildState]
    · rw [if_pos (show (done ++ [i]).length = n from by
        rw [List.length_append, List.length_singleton]; omega)]
      have h7b : ¬(n = n + 1 + i) := by omega
      simp [updDef_defs, hnn, h7b, haggP, pendingAggState, settledAggState]
    · simp only [updDef_allCells, updAll_cells_same, hcell, allInvCell, AllCell.mk.injEq,
        List.length_append, List.length_singleton]
      refine ⟨trivial, trivial, by omega, by simp [hlast], trivial⟩
  · have hrunLC : step 16 ((w.updDef i (fun s => { s with result := vs i, fulfilled := true })).updDef i (fun s => { s with handled := true })) (.runLCO (.allResolvedCb 0 i) (vs i)) = ((((w.updDef i (fun s => { s with result := vs i, fulfilled := true })).updDef i (fun s => { s with handled := true })).updAll 0 (fun s => { s with results := some (resultsOf n vs (done ++ [i])), waiting := s.waiting - 1 })), .ok .undef) := by
      rw [runLC_allResolved_spec 15 _ 0 i (vs i) (allInvCell n vs done) hBcell hcful
        (resultsOf n vs done) rfl]
      rw [resultsOf_set]
      dsimp only [allInvCell]
      rw [if_neg (by omega : ¬(n - done.length - 1 = 0))]
    have hchF : (((((w.updDef i (fun s => { s with result := vs i, fulfilled := true })).updDef i (fun s => { s with handled := true })).updAll 0 (fun s => { s with results := some (resultsOf n vs (done ++ [i])), waiting := s.waiting - 1 }))).defs (n + 1 + i)).fulfilled = false := by
      simp [updDef_defs, hnei, hnen, hch0]
    have hchW : (((((w.updDef i (fun s => { s with result := vs i, fulfilled := true })).updDef i (fun s => { s with handled := true })).updAll 0 (fun s => { s with results := some (resultsOf n vs (done ++ [i])), waiting := s.waiting - 1 }))).defs (n + 1 + i)).waiting = some [] := by
      simp [updDef_defs, hnei, hnen, hch0]
    have hchild : step 16 (((w.updDef i (fun s => { s with result := vs i, fulfilled := true })).updDef i (fun s => { s with handled := true })).updAll 0 (fun s => { s with results := some (resultsOf n vs (done ++ [i])), waiting := s.waiting - 1 })) (.resolveO (n + 1 + i) Value.undef) = ((((((w.updDef i (fun s => { s with result := vs i, fulfilled := true })).updDef i (fun s => { s with handled := true })).updAll 0 (fun s => { s with results := some (resultsOf n vs (done ++ [i])), waiting := s.waiting - 1 })).updDef (n + 1 + i) (fun s => { s with result := Value.undef, fulfilled := true })).updDef (n + 1 + i) (fun s => { s with waiting := none })), .ok .undef) :=
      resolve_pending_empty 13 _ (n + 1 + i) Value.undef hchF hchW
    have hnotify : step 17 (w.updDef i (fun s => { s with result := vs i, fulfilled := true })) (.notifyO i (allListener n i)) = ((((((w.updDef i (fun s => { s with result := vs i, fulfilled := true })).updDef i (fun s => { s with handled := true })).updAll 0 (fun s => { s with results := some (resultsOf n vs (done ++ [i])), waiting := s.waiting - 1 })).updDef (n + 1 + i) (fun s => { s with result := Value.undef, fulfilled := true })).updDef (n + 1 + i) (fun s => { s with waiting := none })), .ok .undef) := by
      refine notify_resolved_run 16 (w.updDef i (fun s => { s with result := vs i, fulfilled := true })) i (allListener n i) (.allResolvedCb 0 i)
        hAisErr rfl (((w.updDef i (fun s => { s with result := vs i, fulfilled := true })).updDef i (fun s => { s with handled := true })).updAll 0 (fun s => { s with results := some (resultsOf n vs (done ++ [i])), waiting := s.waiting - 1 })) Value.undef ?_ rfl (((((w.updDef i (fun s => { s with result := vs i, fulfilled := true })).updDef i (fun s => { s with handled := true })).updAll 0 (fun s => { s with results := some (resultsOf n vs (done ++ [i])), waiting := s.waiting - 1 })).updDef (n + 1 + i) (fun s => { s with result := Value.undef, fulfilled := true })).updDef (n + 1 + i) (fun s => { s with waiting := none })) Value.undef hchild
      rw [hAres]
      exact hrunLC
    have hEw : (((((((w.updDef i (fun s => { s with result := vs i, fulfilled := true })).updDef i (fun s => { s with handled := true })).updAll 0 (fun s => { s with results := some (resultsOf n vs (done ++ [i])), waiting := s.waiting - 1 })).updDef (n + 1 + i) (fun s => { s with result := Value.undef, fulfilled := true })).updDef (n + 1 + i) (fun s => { s with waiting := none }))).defs i).waiting = some [allListener n i] := by
      simp [updDef_defs, hien, hine, hin, pendingInputState]
    have hloop : step 18 (w.updDef i (fun s => { s with result := vs i, fulfilled := true })) (.notifyLoopO i 0) = ((((((w.updDef i (fun s => { s with result := vs i, fulfilled := true })).updDef i (fun s => { s with handled := true })).updAll 0 (fun s => { s with results := some (resultsOf n vs (done ++ [i])), waiting := s.waiting - 1 })).updDef (n + 1 + i) (fun s => { s with result := Value.undef, fulfilled := true })).updDef (n + 1 + i) (fun s => { s with waiting := none })), .ok .undef) :=
      notifyLoop_single 16 (w.updDef i (fun s => { s with result := vs i, fulfilled := true })) i (allListener n i) (((((w.updDef i (fun s => { s with result := vs i, fulfilled := true })).updDef i (fun s => { s with handled := true })).updAll 0 (fun s => { s with results := some (resultsOf n vs (done ++ [i])), waiting := s.waiting - 1 })).updDef (n + 1 + i) (fun s => { s with result := Value.undef, fulfilled := true })).updDef (n + 1 + i) (fun s => { s with waiting := none })) Value.undef hAw hnotify hEw
    have hall : step 19 w (.notifyAllO i (vs i)) = (((((((w.updDef i (fun s => { s with result := vs i, fulfilled := true })).updDef i (fun s => { s with handled := true })).updAll 0 (fun s => { s with results := some (resultsOf n vs (done ++ [i])), waiting := s.waiting - 1 })).updDef (n + 1 + i) (fun s => { s with result := Value.undef, fulfilled := true })).updDef (n + 1 + i) (fun s => { s with waiting := none })).updDef i (fun s => { s with waiting := none })), .ok .undef) := by
      rw [notifyAll_pending 18 w i (vs i) hIf]
      rw [hloop]
    have hfinal : resolve 20 w i (vs i) = (((((((w.updDef i (fun s => { s with result := vs i, fulfilled := true })).updDef i (fun s => { s with handled := true })).updAll 0 (fun s => { s with results := some (resultsOf n vs (done ++ [i])), waiting := s.waiting - 1 })).updDef (n + 1 + i) (fun s => { s with result := Value.undef, fulfilled := true })).updDef (n + 1 + i) (fun s => { s with waiting := none })).updDef i (fun s => { s with waiting := none })), .ok ()) := by
      simp only [resolve, step_resolveO]
      rw [hall]
      rfl
    rw [hfinal]
    dsimp only
    refine ⟨rfl, hnd', hsub', ?_, ?_, ?_, ?_, ?_, ?_⟩
    · intro j hj hjmem
      have hj1 : ¬(j = i) := fun h =>
        hjmem (by rw [h]; exact List.mem_append_right _ (List.mem_singleton_self i))
      have hj2 : ¬(j = n + 1 + i) := by omega
      have hj3 : ¬(j = n) := by
        intro h
        exact absurd hj (by omega)
      simp [updDef_defs, hj1, hj2, hj3]
      exact hpend j hj (fun hmem => hjmem (List.mem_append_left _ hmem))
    · intro j hjmem
      rcases List.mem_append.1 hjmem with hjd | hji
      · have hj1 : ¬(j = i) := fun h => hni (by rw [← h]; exact hjd)
        have hj2 : ¬(j = n + 1 + i) := by have := hsub j hjd; omega
        have hj3 : ¬(j = n) := by have := hsub j hjd; omega
        simp [updDef_defs, hj1, hj2, hj3]
        exact hsett j hjd
      · rw [List.mem_singleton] at hji
        subst hji
        simp [updDef_defs, hien, hine, hin, pendingInputState, settledInputState]
    · intro j hj hjmem
      have hj1 : ¬(n + 1 + j = i) := by omega
      have hj2 : ¬(n + 1 + j = n + 1 + i) := by
        intro h
        have hjei : j = i := by omega
        exact hjmem (by rw [hjei]; exact List.mem_append_right _ (List.mem_singleton_self i))
      have hj3 : ¬(n + 1 + j = n) := by omega
      simp [updDef_defs, hj1, hj2, hj3]
      exact hchp j hj (fun hmem => hjmem (List.mem_append_left _ hmem))
    · intro j hjmem
      rcases List.mem_append.1 hjmem with hjd | hji
      · have hj1 : ¬(n + 1 + j = i) := by have := hsub j hjd; omega
        have hj2 : ¬(n + 1 + j = n + 1 + i) := by
          intro h
          have hjei : j = i := by omega
          exact hni (by rw [← hjei]; exact hjd)
        have hj3 : ¬(n + 1 + j = n) := by omega
        simp [updDef_defs, hj1, hj2, hj3]
        exact hchs j hjd
      · rw [List.mem_singleton] at hji
        subst hji
        simp [updDef_defs, hnei, hnen, hch0, settledChildState]
    · have h7b : ¬(n = n + 1 + i) := by omega
      rw [if_neg (show ¬((done ++ [i]).length = n) from by
        rw [List.length_append, List.length_singleton]; omega)]
      simp [updDef_defs, hnn, h7b, haggP]
    · simp only [updDef_allCells, updAll_cells_same, hcell, allInvCell, AllCell.mk.injEq,
        List.length_append, List.length_singleton]
      refine ⟨trivial, trivial, by omega, ?_, trivial⟩
      rw [decide_eq_decide]
      omega

/-- `then` on a pending, non-cancellable deferred just queues the listener
and allocates the child. -/
theorem thenO_pending (fuel : Nat) (w : World) (d : Nat)
    (rc ec pc : Option LCallback)
    (hc : (w.defs d).canceller = none)
    (hnf : (w.defs d).fulfilled = false)
    (hdn : ¬(d = w.nextDef)) :
    step (fuel + 1) w (.thenO d rc ec pc) =
      ((freshDef w none).1.updDef d
        (fun s => { s with waiting := s.waiting.map (· ++ [⟨rc, ec, pc, w.nextDef⟩]) }),
       .ok (.promise w.nextDef)) := by
  rw [step_thenO]
  simp only [hc, Option.isSome_none, Bool.false_eq_true, if_false]
  have h1 : ((freshDef w none).1.defs d).fulfilled = false := by
    rw [freshDef_defs_ne w none d hdn]
    exact hnf
  simp [h1]

/-- Attaching the `all` closures to the pending inputs `k, k+1, …, n-1`:
each input gets its listener, each when-chain child is freshly allocated,
and nothing else changes. -/
theorem allAttach_go (n : Nat) : ∀ (m k : Nat) (w : World),
    k + m = n →
    w.nextDef = n + 1 + k →
    (∀ i, k ≤ i → i < n → w.defs i = {}) →
    ∃ w', allAttach 20 (.allRejectedNewCb 0) 0 w ((List.range' k m).map Value.promise) k
        = (w', .ok ((List.range' k m).map (fun i => n + 1 + i)))
      ∧ (∀ x, (x < k ∨ (n ≤ x ∧ x < n + 1 + k)) → w'.defs x = w.defs x)
      ∧ (∀ i, k ≤ i → i < n → w'.defs i = pendingInputState n i)
      ∧ (∀ i, k ≤ i → i < n → w'.defs (n + 1 + i) = {})
      ∧ w'.allCells = w.allCells := by
  intro m
  induction m with
  | zero =>
    intro k w hkm hnext hdefs
    exact ⟨w, rfl, fun x _ => rfl, fun i hk hi => absurd hi (by omega),
      fun i hk hi => absurd hi (by omega), rfl⟩
  | succ m ih =>
    intro k w hkm hnext hdefs
    have hkn : k < n := by omega
    have hkw : ¬(k = w.nextDef) := by omega
    have hthen : step 19 w (.thenO k (some (.allResolvedCb 0 k))
        (some (.allRejectedNewCb 0)) none) =
        ((freshDef w none).1.updDef k
          (fun s => { s with waiting := s.waiting.map (· ++ [⟨some (.allResolvedCb 0 k), some (.allRejectedNewCb 0), none, w.nextDef⟩]) }),
         .ok (.promise w.nextDef)) :=
      thenO_pending 18 w k _ _ _ (by rw [hdefs k le_rfl hkn])
        (by rw [hdefs k le_rfl hkn]) hkw
    have hlist : (List.range' k (m + 1)).map Value.promise
        = Value.promise k :: (List.range' (k + 1) m).map Value.promise := by
      rw [List.range'_succ]
      rfl
    rw [hlist]
    have hwhen : whenOp 20 w (Value.promise k) (some (.allResolvedCb 0 k))
        (some (.allRejectedNewCb 0)) none =
        ((freshDef w none).1.updDef k
          (fun s => { s with waiting := s.waiting.map (· ++ [⟨some (.allResolvedCb 0 k), some (.allRejectedNewCb 0), none, w.nextDef⟩]) }),
         .ok w.nextDef) := by
      simp only [whenOp, step_whenO]
      rw [hthen]
      rfl
    have hlist2 : (List.range' k (m + 1)).map (fun i => n + 1 + i)
        = (n + 1 + k) :: (List.range' (k + 1) m).map (fun i => n + 1 + i) := by
      rw [List.range'_succ]
      rfl
    rw [hlist2]
    have hnext1 : (((freshDef w none).1.updDef k (fun s => { s with waiting := s.waiting.map (· ++ [⟨some (.allResolvedCb 0 k), some (.allRejectedNewCb 0), none, w.nextDef⟩]) }))).nextDef = n + 1 + (k + 1) := by
      simp only [updDef_nextDef, freshDef_nextDef, hnext]
      omega
    have hdefs1 : ∀ i, k + 1 ≤ i → i < n → (((freshDef w none).1.updDef k (fun s => { s with waiting := s.waiting.map (· ++ [⟨some (.allResolvedCb 0 k), some (.allRejectedNewCb 0), none, w.nextDef⟩]) }))).defs i = {} := by
      intro i hk1 hi
      have h1 : ¬(i = k) := by omega
      have h2 : ¬(i = w.nextDef) := by omega
      rw [updDef_defs, if_neg h1, freshDef_defs_ne _ _ _ h2]
      exact hdefs i (by omega) hi
    obtain ⟨w', ha, hb, hc, hd, he⟩ := ih (k + 1) ((freshDef w none).1.updDef k (fun s => { s with waiting := s.waiting.map (· ++ [⟨some (.allResolvedCb 0 k), some (.allRejectedNewCb 0), none, w.nextDef⟩]) })) (by omega) hnext1 hdefs1
    have hW1base : ∀ x, ¬(x = k) → ¬(x = w.nextDef) → (((freshDef w none).1.updDef k (fun s => { s with waiting := s.waiting.map (· ++ [⟨some (.allResolvedCb 0 k), some (.allRejectedNewCb 0), none, w.nextDef⟩]) }))).defs x = w.defs x := by
      intro x h1 h2
      rw [updDef_defs, if_neg h1, freshDef_defs_ne _ _ _ h2]
    refine ⟨w', ?_, ?_, ?_, ?_, ?_⟩
    · simp only [allAttach]
      rw [hwhen]
      dsimp only
      rw [ha]
      dsimp only
      rw [hnext]
    · intro x hx
      have hx1 : x < k + 1 ∨ (n ≤ x ∧ x < n + 1 + (k + 1)) := by omega
      rw [hb x hx1]
      exact hW1base x (by omega) (by omega)
    · intro i hk hi
      rcases Nat.eq_or_lt_of_le hk with hik | hik
      · subst hik
        have hb1 : w'.defs k = (((freshDef w none).1.updDef k (fun s => { s with waiting := s.waiting.map (· ++ [⟨some (.allResolvedCb 0 k), some (.allRejectedNewCb 0), none, w.nextDef⟩]) }))).defs k := hb k (by omega)
        rw [hb1, updDef_defs, if_pos rfl]
        rw [freshDef_defs_ne _ _ _ hkw, hdefs k le_rfl hi]
        simp [pendingInputState, allListener, hnext]
      · exact hc i (by omega) hi
    · intro i hk hi
      rcases Nat.eq_or_lt_of_le hk with hik | hik
      · subst hik
        have hreg : n ≤ n + 1 + k ∧ n + 1 + k < n + 1 + (k + 1) := by omega
        rw [hb (n + 1 + k) (Or.inr hreg)]
        have h1 : ¬(n + 1 + k = k) := by omega
        rw [updDef_defs, if_neg h1]
        have h2 : n + 1 + k = w.nextDef := by omega
        rw [h2]
        simp
      · exact hd i (by omega) hi
    · rw [he]
      simp

/-! ### Claim C1 -/

/-- Claim C1, counterexample.  The claim states that a second settlement
attempt throws AND leaves the previously settled outcome, as observed by
later `then` calls, unchanged.  The throw indeed happens, but `reject` sets
`isError = true` before `notifyAll` can throw, so rejecting an
already-resolved deferred flips it onto the rejected track: a later
`then(f, g)` invokes the reject callback `g` (user callback 2) with the
originally resolved value `1`, instead of invoking `f` (user callback 1). -/
theorem C1_counterexample :
    c1rej.2 = .error alreadyResolved ∧
    (c1rej.1.defs 0).isError = true ∧
    (c1rej.1.defs 0).fulfilled = true ∧
    (c1rej.1.defs 0).result = .intV 1 ∧
    c1obs.1.trace = [(2, .intV 1)] :=
  ⟨rfl, rfl, rfl, rfl, rfl⟩

/-- Claim C1, amended.  On an already settled deferred, any further
`resolve` or `reject` throws `Error("This deferred has already been
resolved")`.  A failed `resolve` leaves the world completely unchanged, so
the settled outcome is preserved; a failed `reject`, however, leaves the
`isError = true` assignment behind (it happens before the throw), so a
reject after a resolve switches later observers onto the rejected track
while keeping the originally resolved value. -/
theorem C1_amended (fuel : Nat) (w : World) (d : Nat) (v e : Value)
    (ig : Bool) (hf : (w.defs d).fulfilled = true) :
    resolve (fuel + 2) w d v = (w, .error alreadyResolved) ∧
    reject (fuel + 2) w d e ig =
      (w.updDef d (fun s => { s with isError := true }), .error alreadyResolved) := by
  constructor
  · simp only [resolve, step_resolveO, step_notifyAllO]
    simp [hf, Except.map]
  · simp only [reject, step_rejectO, step_notifyAllO]
    simp [hf, Except.map]

/-- Witness for `C1_amended` at a concrete settled deferred. -/
theorem C1_amended_witness :
    (c1B.defs 0).fulfilled = true ∧
    resolve 50 c1B 0 (.intV 9) = (c1B, .error alreadyResolved) :=
  ⟨rfl, (C1_amended 48 c1B 0 (.intV 9) (.intV 9) false rfl).1⟩

/-! ### Claim C3 -/

/-- Claim C3.  For every error `e`: `rejected(e).then(null, g)` invokes `g`
with `e` exactly once (the trace contains exactly one entry, tagged 7 with
argument `e`); and `rejected(e).then(f)` with no reject callback does not
swallow the rejection: the promise returned by `then` (deferred 1) is itself
rejected with `e`. -/
theorem C3_rejection_propagation (e : Value) :
    (c3thenG e).1.trace = [(7, e)] ∧
    (c3thenF e).2 = .ok 1 ∧
    ((c3thenF e).1.defs 1).fulfilled = true ∧
    ((c3thenF e).1.defs 1).isError = true ∧
    ((c3thenF e).1.defs 1).result = e :=
  ⟨rfl, rfl, rfl, rfl, rfl⟩

/-! ### Claim C4 -/

/-- Claim C4, counterexample.  With the canceller `function(reason){ return
reason; }` and `cancel(3)`: the newer module forwards the reason, so the
deferred is rejected with `3`; but the older module invokes the canceller
with NO argument (`canceller()`), the canceller returns `undefined`, and the
deferred is rejected with a `CancelError` instead of the reason-derived
error — so "invokes the canceller with reason" fails on the older module's
`Deferred.cancel`, which the claim also cites. -/
theorem C4_counterexample :
    (cancelOpOld 50 (c4w fun r => r) 0 (.intV 3)).2 = .ok () ∧
    ((cancelOpOld 50 (c4w fun r => r) 0 (.intV 3)).1.defs 0).isError = true ∧
    ((cancelOpOld 50 (c4w fun r => r) 0 (.intV 3)).1.defs 0).result = .cancelError ∧
    ((cancelOp 50 (c4w fun r => r) 0 (.intV 3)).1.defs 0).result = .intV 3 ∧
    Value.cancelError ≠ .intV 3 :=
  ⟨rfl, rfl, rfl, rfl, fun h => Value.noConfusion h⟩

/-- Claim C4, amended.  For every canceller function `f` and reason:
cancelling a pending deferred runs the canceller — with the reason in the
newer module, with no argument in the older module — and rejects the
deferred with a `CancelError` when the canceller returned `undefined`, and
with exactly the returned error otherwise.  Cancelling after settlement has
no effect in either module. -/
theorem C4_amended (f : Value → Value) (reason v : Value) :
    (cancelOp 50 (c4w f) 0 reason).2 = .ok () ∧
    ((cancelOp 50 (c4w f) 0 reason).1.defs 0).fulfilled = true ∧
    ((cancelOp 50 (c4w f) 0 reason).1.defs 0).isError = true ∧
    ((cancelOp 50 (c4w f) 0 reason).1.defs 0).result
      = (if isUndef (f reason) then Value.cancelError else f reason) ∧
    ((cancelOpOld 50 (c4w f) 0 reason).1.defs 0).result
      = (if isUndef (f .undef) then Value.cancelError else f .undef) ∧
    cancelOp 50 (c4settled f v) 0 reason = (c4settled f v, .ok ()) ∧
    cancelOpOld 50 (c4settled f v) 0 reason = (c4settled f v, .ok ()) :=
  ⟨rfl, rfl, rfl, rfl, rfl, rfl, rfl⟩

/-! ### Claim C5 -/

/-- Claim C5, counterexample.  A deferred built WITH a canceller (returning
nothing) and an armed timeout: when the timer fires while pending, the body
takes the `promise.cancel(new TimeoutError)` branch, the canceller returns
`undefined`, and the deferred is rejected with a `CancelError` — not with
the `TimeoutError` the claim requires for every armed deferred. -/
theorem C5_counterexample :
    (fireTimer 50 (c5arm fun _ => .undef) 0).2 = .ok () ∧
    ((fireTimer 50 (c5arm fun _ => .undef) 0).1.defs 0).isError = true ∧
    ((fireTimer 50 (c5arm fun _ => .undef) 0).1.defs 0).result = .cancelError ∧
    Value.cancelError ≠ .timeoutError :=
  ⟨rfl, rfl, rfl, fun h => Value.noConfusion h⟩

/-- Claim C5, amended.  When the armed timer fires: (1) on an already
settled deferred it is a no-op; (2) a pending NON-cancellable deferred is
rejected with a `TimeoutError`; (3) a pending cancellable deferred is
cancelled with the `TimeoutError` as reason, hence rejected with whatever
its canceller produces — a `CancelError` when the canceller returns
`undefined`, else exactly the returned error. -/
theorem C5_amended :
    (∀ (fuel : Nat) (w : World) (d : Nat), (w.defs d).fulfilled = true →
      fireTimer fuel w d = (w, .ok ())) ∧
    (∀ (fuel : Nat) (w : World) (d : Nat),
      (w.defs d).fulfilled = false → (w.defs d).canceller = none →
      (w.defs d).waiting = some [] → (w.defs d).handled = false →
      (fireTimer (fuel + 4) w d).2 = .ok () ∧
      ((fireTimer (fuel + 4) w d).1.defs d).result = .timeoutError ∧
      ((fireTimer (fuel + 4) w d).1.defs d).isError = true ∧
      ((fireTimer (fuel + 4) w d).1.defs d).fulfilled = true ∧
      (fireTimer (fuel + 4) w d).1.checks = w.checks ++ [(d, .timeoutError)]) ∧
    (∀ f : Value → Value,
      (fireTimer 50 (c5arm f) 0).2 = .ok () ∧
      ((fireTimer 50 (c5arm f) 0).1.defs 0).isError = true ∧
      ((fireTimer 50 (c5arm f) 0).1.defs 0).result
        = (if isUndef (f .timeoutError) then Value.cancelError else f .timeoutError)) := by
  refine ⟨fun fuel w d hf => ?_, fun fuel w d hf hc hw hh => ?_, fun f => ⟨rfl, rfl, rfl⟩⟩
  · simp [fireTimer, hf]
  · simp only [fireTimer, hf, hc, Bool.false_eq_true, if_false, Option.isSome_none,
      reject, step_rejectO, step_notifyAllO, step_notifyLoopO, updDef_defs_same]
    simp [hf, hw, hh, Except.map]

/-- Witness for `C5_amended` at concrete inputs: the settled no-op on a
resolved deferred, and the timeout rejection of a pending non-cancellable
deferred. -/
theorem C5_witness :
    ((c1B.defs 0).fulfilled = true ∧ fireTimer 50 c1B 0 = (c1B, .ok ())) ∧
    ((fireTimer 50 c5nc 0).1.defs 0).result = .timeoutError :=
  ⟨⟨rfl, C5_amended.1 50 c1B 0 rfl⟩,
   ((C5_amended.2.1 46 c5nc 0 rfl rfl rfl rfl).2.1)⟩

/-! ### Claim C6 -/

/-- Claim C6, counterexample.  `p1 = d.then(f)`; `d` rejected with `5`;
then — still before the grace period — `p1.then(null, g)` attaches a reject
callback one hop downstream, and `g` is in fact invoked with the error
(trace entry tagged 2).  The claim requires this attachment to suppress the
unhandled-rejection event entirely, but the scheduled check reads only the
rejected deferred's own `handled` flag, which the late downstream
attachment does not update, so the event is still emitted. -/
theorem C6_counterexample :
    c6late.trace = [(2, .intV 5)] ∧
    (fireChecks c6late).emitted = [.intV 5] :=
  ⟨rfl, rfl⟩

/-- Claim C6, amended.  For every error `e`: a rejection none of whose chain
ever attaches a reject callback schedules exactly one unhandled-rejection
check and, after the grace period, emits exactly one "error" event with `e`.
The emission is suppressed when a reject callback is attached directly to
the rejected deferred before the grace period elapses, or anywhere
downstream BEFORE the rejection (the transitive `handled` propagation at
rejection time then already marks it handled, so no check is even
scheduled).  Attaching downstream of the rejected deferred after the
rejection does not suppress it (see the counterexample). -/
theorem C6_amended (e : Value) :
    (c6unobserved e).checks = [(0, e)] ∧
    (fireChecks (c6unobserved e)).emitted = [e] ∧
    (fireChecks (c6unobserved e)).checks = [] ∧
    (fireChecks (c6directAttach e)).emitted = [] ∧
    (c6preAttach e).checks = [] ∧
    (fireChecks (c6preAttach e)).emitted = [] :=
  ⟨rfl, rfl, rfl, rfl, rfl, rfl⟩

/-! ### Claim C8 -/

/-- Claim C8.  After a settlement that completed normally (`resolve` or
`reject` returned rather than throwing), the internal waiting list is
`null`, so a later `progress(update)` throws a `TypeError` (from
`waiting.length` on `null`) instead of being a silent no-op. -/
theorem C8_progress_after_settlement (fuel fuel2 : Nat) (w : World) (d : Nat)
    (v e u : Value) (ig : Bool) :
    ((resolve fuel w d v).2 = .ok () →
      progressOp (fuel2 + 1) (resolve fuel w d v).1 d u
        = ((resolve fuel w d v).1, .error typeError)) ∧
    ((∃ b, (reject fuel w d e ig).2 = .ok b) →
      progressOp (fuel2 + 1) (reject fuel w d e ig).1 d u
        = ((reject fuel w d e ig).1, .error typeError)) := by
  constructor
  · intro h
    rcases hs : step fuel w (.resolveO d v) with ⟨w1, r1⟩
    cases r1 with
    | error ex => simp [resolve, hs, Except.map] at h
    | ok rv =>
      have hw : (w1.defs d).waiting = none :=
        step_resolve_ok_waiting_none fuel w d v w1 rv hs
      simp [resolve, hs, progressOp, step_progressLoopO, hw, Except.map]
  · intro h
    rcases hs : step fuel w (.rejectO d e ig) with ⟨w1, r1⟩
    cases r1 with
    | error ex => simp [reject, hs, Except.map] at h
    | ok rv =>
      have hw : (w1.defs d).waiting = none :=
        step_reject_ok_waiting_none fuel w d e ig w1 rv hs
      simp [reject, hs, progressOp, step_progressLoopO, hw, Except.map]

/-- Witness for `C8_progress_after_settlement`: a freshly resolved deferred
whose `progress` then throws the `TypeError`. -/
theorem C8_witness :
    (c8resolved (.intV 1)).2 = .ok () ∧
    progressOp 50 (c8resolved (.intV 1)).1 0 (.intV 0)
      = ((c8resolved (.intV 1)).1, .error typeError) :=
  ⟨rfl,
   (C8_progress_after_settlement 50 49 (freshDef W0 none).1 0 (.intV 1)
      (.intV 1) (.intV 0) false).1 rfl⟩

/-! ### Claim C9 -/

/-- Claim C9.  For every plain (non-thenable) target: the direct method
invocation performed by module-level `call` throws (in the model every
method application on a plain value throws, as in JavaScript when the
property is not callable), and `perform` then rejects the returned promise
with the ORIGINAL target value itself — not with the thrown exception —
because the `catch` clause runs before `value` was reassigned.  Likewise
module-level `get` on `undefined` throws a `TypeError` and rejects with the
target `undefined`. -/
theorem C9_perform_rejects_with_target (target : Value) (name : String)
    (args : List Value) (hT : isThenable target = false) :
    (moduleCall 50 W0 target name args).2 = .ok 0 ∧
    ((moduleCall 50 W0 target name args).1.defs 0).fulfilled = true ∧
    ((moduleCall 50 W0 target name args).1.defs 0).isError = true ∧
    ((moduleCall 50 W0 target name args).1.defs 0).result = target ∧
    ((moduleGet 50 W0 .undef name).1.defs 0).result = .undef ∧
    ((moduleGet 50 W0 .undef name).1.defs 0).isError = true := by
  cases target <;>
    first
      | exact ⟨rfl, rfl, rfl, rfl, rfl, rfl⟩
      | simp [isThenable] at hT

/-- Witness for `C9_perform_rejects_with_target` at the plain object `{}`
and the missing method `foo`. -/
theorem C9_witness :
    isThenable (.obj []) = false ∧
    ((moduleCall 50 W0 (.obj []) "foo" []).1.defs 0).result = .obj [] :=
  ⟨rfl, (C9_perform_rejects_with_target (.obj []) "foo" [] rfl).2.2.2.1⟩

/-! ### Claim C10 -/

/-- Claim C10, counterexample.  The two `all` combinators are NOT observably
equivalent: (1) for the empty input the older aggregate promise exposes a
`cancel` method while the newer one (`resolved([])`) does not; (2) when a
second input rejects, the older rejection closure (which never sets
`fulfilled`) calls `deferred.reject` again, which throws the
double-settlement error inside `notify`; the catch rejects that input's
chain deferred with `Error("This deferred has already been resolved")` and
schedules a second unhandled-rejection report, so after the grace period
the older module emits two "error" events where the newer emits one. -/
theorem C10_counterexample :
    hasCancel (allOld 50 W0 []).1 0 = true ∧
    hasCancel (allNew 50 W0 []).1 0 = false ∧
    (c10oldDouble (.intV 1) (.intV 2)).checks
      = [(2, .intV 1), (4, alreadyResolved)] ∧
    (c10newDouble (.intV 1) (.intV 2)).checks = [(2, .intV 1)] ∧
    (fireChecks (c10oldDouble (.intV 1) (.intV 2))).emitted
      = [.intV 1, alreadyResolved] ∧
    (fireChecks (c10newDouble (.intV 1) (.intV 2))).emitted = [.intV 1] :=
  ⟨rfl, rfl, rfl, rfl, rfl, rfl⟩

/-- Claim C10, amended.  The two `all` combinators agree on the settlement
outcome: with two pending inputs both fulfilling (out of order) both
aggregates fulfill with `[v1, v2]` and both are cancellable; with rejecting
inputs both aggregates reject with the first error; and for the empty input
both fulfill with `[]`.  They differ in the empty input's cancellation
capability and in the bookkeeping after a second rejection (see the
counterexample). -/
theorem C10_amended (v1 v2 e1 e2 : Value) :
    ((c10oldBoth v1 v2).defs 2).result = .arr [v1, v2] ∧
    ((c10newBoth v1 v2).defs 2).result = .arr [v1, v2] ∧
    ((c10oldBoth v1 v2).defs 2).isError = false ∧
    ((c10newBoth v1 v2).defs 2).isError = false ∧
    ((c10oldBoth v1 v2).defs 2).fulfilled = true ∧
    ((c10newBoth v1 v2).defs 2).fulfilled = true ∧
    hasCancel (c10oldBoth v1 v2) 2 = true ∧
    hasCancel (c10newBoth v1 v2) 2 = true ∧
    ((c10oldDouble e1 e2).defs 2).result = e1 ∧
    ((c10newDouble e1 e2).defs 2).result = e1 ∧
    ((c10oldDouble e1 e2).defs 2).isError = true ∧
    ((c10newDouble e1 e2).defs 2).isError = true ∧
    ((allOld 50 W0 []).1.defs 0).result = .arr [] ∧
    ((allOld 50 W0 []).1.defs 0).fulfilled = true ∧
    ((allNew 50 W0 []).1.defs 0).result = .arr [] ∧
    ((allNew 50 W0 []).1.defs 0).fulfilled = true :=
  ⟨rfl, rfl, rfl, rfl, rfl, rfl, rfl, rfl, rfl, rfl, rfl, rfl, rfl, rfl, rfl, rfl⟩

end Promised

namespace Promised

theorem resultsOf_nil (n : Nat) (vs : Nat → Value) :
    resultsOf n vs [] = List.replicate n none := by
  simp [resultsOf]

theorem allSetup_inv (n : Nat) (vs : Nat → Value) (hn : 0 < n) :
    AllInv n vs [] (allSetup n) ∧
    (allNew 20 (mkPendingN n) ((List.range n).map Value.promise)).2 = .ok n := by
  have hlen : ((List.range n).map Value.promise).length = n := by simp
  unfold allSetup allNew
  rw [hlen, if_neg (by omega)]
  dsimp only [mkPendingN, W0]
  obtain ⟨w', ha, hb, hc, hd, he⟩ := allAttach_go n n 0
    ((freshDef { defs := fun _ => ({} : DefState), nextDef := n, allCells := Function.update (fun _ => ({} : AllCell)) 0 { promises := none, results := some (List.replicate n none), waiting := n, fulfilled := false, deferred := n }, nextAll := 0 + 1, seqCells := fun _ => ({} : SeqCell), nextSeq := 0, trace := [], emitted := [], checks := [], timers := [] } (some (Canceller.allCanceller 0))).1)
    (by omega) (by simp) (fun i _ hi => by
      rw [freshDef_defs_ne _ _ _ (show i ≠ _ by simp; omega)])
  rw [List.range_eq_range' n, ha]
  dsimp only
  refine ⟨⟨List.nodup_nil, by simp, ?_, by simp, ?_, by simp, ?_, ?_⟩, rfl⟩
  · intro i hi _
    simp only [updAll_defs]
    exact hc i (Nat.zero_le i) hi
  · intro i hi _
    simp only [updAll_defs]
    exact hd i (Nat.zero_le i) hi
  · simp only [updAll_defs]
    rw [hb n (Or.inr ⟨le_rfl, by omega⟩)]
    rw [if_neg (by simp; omega)]
    exact freshDef_defs_same _ _
  · rw [updAll_cells_same, he]
    simp only [freshDef_allCells, Function.update_same]
    simp only [allInvCell, resultsOf_nil, ← List.range_eq_range' n, AllCell.mk.injEq]
    refine ⟨trivial, trivial, by simp, by simp; omega, trivial⟩

/-- Settling a nodup batch of pending inputs, in any order, preserves the
`all` invariant with the batch appended to the done-list. -/
theorem allSettle_go (n : Nat) (vs : Nat → Value) (done order : List Nat)
    (w : World) (hInv : AllInv n vs done w)
    (hnd : (done ++ order).Nodup) (hsub : ∀ j ∈ order, j < n) :
    AllInv n vs (done ++ order) (settleAll vs order w) := by
  induction order generalizing done w with
  | nil => simpa [settleAll] using hInv
  | cons i rest ih =>
    have hi : i < n := hsub i (List.mem_cons_self i rest)
    have hni : i ∉ done := by
      intro hmem
      have hdisj := (List.nodup_append.1 hnd).2.2
      exact hdisj hmem (List.mem_cons_self i rest)
    obtain ⟨-, hInv2⟩ := allSettle_step n vs done i w hInv hi hni
    have hnd2 : ((done ++ [i]) ++ rest).Nodup := by
      simpa [List.append_assoc] using hnd
    have hres := ih (done ++ [i]) _ hInv2 hnd2
      (fun j hj => hsub j (List.mem_cons_of_mem i hj))
    have heq : done ++ i :: rest = (done ++ [i]) ++ rest := by simp
    rw [heq]
    exact hres

/-- Claim C2.  For every input count `n`, every assignment `vs` of fulfillment
values to the inputs and every settlement order (any permutation of the
inputs), the newer `all` over `n` pending promises returns the aggregate
deferred without throwing, and once every input has fulfilled the aggregate
is fulfilled (not rejected) with the array of the `n` results in input order
— independent of the settlement order.  Taking `n = 0` (so the input list is
empty and the only permutation is the empty order, with no settlement steps),
the same statement shows the empty input fulfills immediately with `[]`. -/
theorem C2_all_order_independent (n : Nat) (vs : Nat → Value) (order : List Nat)
    (hperm : order.Perm (List.range n)) :
    (allNew 20 (mkPendingN n) ((List.range n).map Value.promise)).2 = .ok n ∧
    ((settleAll vs order (allSetup n)).defs n).result
      = .arr ((List.range n).map vs) ∧
    ((settleAll vs order (allSetup n)).defs n).fulfilled = true ∧
    ((settleAll vs order (allSetup n)).defs n).isError = false := by
  rcases Nat.eq_zero_or_pos n with hn | hn
  · subst hn
    have horder : order = [] :=
      List.eq_nil_of_length_eq_zero (by simpa using hperm.length_eq)
    subst horder
    exact ⟨rfl, rfl, rfl, rfl⟩
  · obtain ⟨hInv0, hok⟩ := allSetup_inv n vs hn
    have hnd : (([] : List Nat) ++ order).Nodup := by
      simpa using hperm.nodup_iff.2 (List.nodup_range n)
    have hsub : ∀ j ∈ order, j < n := by
      intro j hj
      have := hperm.mem_iff.1 hj
      simpa using this
    have hInv := allSettle_go n vs [] order _ hInv0 hnd hsub
    obtain ⟨-, -, -, -, -, -, hagg, -⟩ := hInv
    have hlen : order.length = n := by simpa using hperm.length_eq
    rw [if_pos (show (([] : List Nat) ++ order).length = n by simpa using hlen)]
      at hagg
    exact ⟨hok, by rw [hagg]; rfl, by rw [hagg]; rfl, by rw [hagg]; rfl⟩

theorem C2_witness :
    ([1, 0] : List Nat).Perm (List.range 2) ∧
    ((allNew 20 (mkPendingN 2) ((List.range 2).map Value.promise)).2 = .ok 2 ∧
     ((settleAll (fun i => Value.intV i) [1, 0] (allSetup 2)).defs 2).result
       = .arr ((List.range 2).map (fun i => Value.intV i)) ∧
     ((settleAll (fun i => Value.intV i) [1, 0] (allSetup 2)).defs 2).fulfilled
       = true ∧
     ((settleAll (fun i => Value.intV i) [1, 0] (allSetup 2)).defs 2).isError
       = false) :=
  ⟨by decide, C2_all_order_independent 2 (fun i => Value.intV i) [1, 0] (by decide)⟩

/-- `when` on a non-thenable value takes the `resolved(value).then(...)`
path. -/
theorem whenO_nonThenable (fuel : Nat) (w : World) (v : Value)
    (hv : isThenable v = false) (rc ec pc : Option LCallback) :
    step (fuel + 1) w (.whenO v rc ec pc) =
      (match step fuel w (.resolvedO v) with
       | (w1, .ok (.promise d)) => step fuel w1 (.thenO d rc ec pc)
       | (w1, .ok _) => (w1, .error fuelOut)
       | (w1, .error ex) => (w1, .error ex)) := by
  rw [step_whenO]
  cases v
  case promise q => simp [isThenable] at hv
  all_goals rfl

/-- `resolved(value)` allocates a fresh deferred and settles it at once. -/
theorem resolvedO_fresh (fuel : Nat) (w : World) (v : Value) :
    step (fuel + 4) w (.resolvedO v) =
      (((freshDef w none).1.updDef w.nextDef
          (fun s => { s with result := v, fulfilled := true })).updDef w.nextDef
          (fun s => { s with waiting := none }), .ok (.promise w.nextDef)) := by
  rw [step_resolvedO]
  dsimp only
  rw [resolve_pending_empty fuel _ _ v (by simp) (by simp)]
  simp only [freshDef_snd]

/-- Rejecting a pending deferred with no listeners records the error, drains,
and schedules the unhandled-rejection check. -/
theorem reject_pending_empty (fuel : Nat) (w : World) (d : Nat) (e : Value)
    (hf : (w.defs d).fulfilled = false) (hw : (w.defs d).waiting = some [])
    (hh : (w.defs d).handled = false) :
    step (fuel + 4) w (.rejectO d e false) =
      ((((w.updDef d (fun s => { s with isError := true })).updDef d
           (fun s => { s with result := e, fulfilled := true })).updDef d
           (fun s => { s with waiting := none })).pushCheck (d, e),
       .ok (.boolV false)) := by
  rw [step_rejectO]
  dsimp only
  rw [notifyAll_pending _ _ _ _ (by simp [updDef_defs, hf])]
  rw [notifyLoop_empty (fuel + 1) _ d (by simp [updDef_defs, hw])]
  dsimp only
  simp [updDef_defs, hh]

/-- Reading a deferred state through a fresh allocation. -/
theorem freshDef_defs (w : World) (c : Option Canceller) (x : Nat) :
    (freshDef w c).1.defs x =
      if x = w.nextDef then { canceller := c } else w.defs x := by
  by_cases h : x = w.nextDef
  · subst h; simp
  · simp [freshDef_defs_ne _ _ _ h, h]

/-- `when(value, ...)` on a non-thenable value: allocate a fresh deferred,
resolve it with the value, and `then` it with the callbacks. -/
theorem whenO_nonThenable_spec (fuel : Nat) (w : World) (v : Value)
    (hv : isThenable v = false) (rc ec pc : Option LCallback) :
    step (fuel + 5) w (.whenO v rc ec pc) =
      step (fuel + 4)
        (((freshDef w none).1.updDef w.nextDef
            (fun s => { s with result := v, fulfilled := true })).updDef w.nextDef
            (fun s => { s with waiting := none }))
        (.thenO w.nextDef rc ec pc) := by
  rw [whenO_nonThenable (fuel + 4) _ _ hv]
  rw [resolvedO_fresh fuel]

/-- `then` on a settled, drained, non-cancellable deferred notifies the new
listener immediately. -/
theorem thenO_settled_notify (fuel : Nat) (w : World) (d : Nat)
    (rc ec pc : Option LCallback)
    (hful : (w.defs d).fulfilled = true) (hwait : (w.defs d).waiting = none)
    (hcanc : (w.defs d).canceller = none) (hlt : d < w.nextDef) :
    step (fuel + 1) w (.thenO d rc ec pc) =
      (match step fuel (freshDef w none).1
          (.notifyO d ⟨rc, ec, pc, w.nextDef⟩) with
       | (w2, .ok _) => (w2, .ok (.promise w.nextDef))
       | (w2, .error ex) => (w2, .error ex)) := by
  rw [step_thenO]
  simp [hcanc, freshDef_defs_ne w none d (Nat.ne_of_lt hlt), hful, hwait]

/-- `notify` invoking the `seq` continuation as the resolved callback: run
the recursion, then resolve the (untouched, still fresh) downstream child
deferred with the continuation result `undefined`. -/
theorem notify_seqNext_run (fuel : Nat) (w : World) (d2 cell cd : Nat)
    (ec pc : Option LCallback) (r : Value)
    (hisErr : (w.defs d2).isError = false)
    (hr : (w.defs d2).result = r)
    (wR : World)
    (hrec : step (fuel + 3)
        (w.updDef d2 (fun s => { s with handled := true }))
        (.seqNextO cell r) = (wR, .ok .undef))
    (hfr : (wR.defs cd).fulfilled = false)
    (hfw : (wR.defs cd).waiting = some []) :
    step (fuel + 5) w (.notifyO d2 ⟨some (.seqNextCb cell), ec, pc, cd⟩) =
      ((wR.updDef cd (fun s => { s with result := .undef, fulfilled := true })).updDef
        cd (fun s => { s with waiting := none }), .ok .undef) := by
  refine notify_resolved_run (fuel + 4) w d2 _ (.seqNextCb cell) hisErr rfl
    wR .undef ?_ rfl
    ((wR.updDef cd (fun s => { s with result := .undef, fulfilled := true })).updDef
      cd (fun s => { s with waiting := none })) .undef ?_
  · rw [step_runLCO_seqNext, hr]
    exact hrec
  · exact resolve_pending_empty (fuel + 1) wR cd .undef hfr hfw

/-- C7 main lemma.  Running `next(value)` on a live `seq` cell whose
remaining actions are all pure: execution returns normally, the trace
extends by exactly `seqSpecTrace` (each action invoked once, in order, with
the previous step's result, stopping at the first throw), the sequence
deferred settles exactly as `seqSpecOutcome` prescribes, and no previously
existing deferred other than the sequence deferred is modified. -/
theorem seqNext_go (acts : List (Nat × UserCb)) :
    PureActions acts → ∀ cell d v w,
    w.seqCells cell =
      { remaining := some acts, cancelled := false, deferred := d } →
    w.defs d = seqPendingState cell →
    d < w.nextDef →
    ∃ w2,
      seqNextRun (5 * acts.length + 4) w cell v = (w2, .ok .undef) ∧
      w2.trace = w.trace ++ seqSpecTrace acts v ∧
      w2.defs d = seqDoneState cell (seqSpecOutcome acts v) ∧
      (∀ j, j ≠ d → j < w.nextDef → w2.defs j = w.defs j) ∧
      w.nextDef ≤ w2.nextDef := by
  induction acts with
  | nil =>
    intro _ cell d v w hcell hd hdn
    unfold seqNextRun
    rw [step_seqNextO, hcell]
    dsimp only
    rw [resolve_pending_empty _ _ _ v (by rw [hd]; rfl) (by rw [hd]; rfl)]
    dsimp only
    refine ⟨_, rfl, by simp [seqSpecTrace], ?_, ?_, by simp⟩
    · simp only [updDef_defs_same]
      rw [hd]
      rfl
    · intro j hj _
      simp [updDef_defs, hj]
  | cons p rest ih =>
    obtain ⟨tag, act⟩ := p
    intro hpure cell d v w hcell hd hdn
    have hpure_rest : PureActions rest :=
      fun q hq => hpure q (List.mem_cons_of_mem _ hq)
    have hfuel : 5 * ((tag, act) :: rest).length + 4
        = 5 * rest.length + 8 + 1 := by
      simp [List.length_cons]
      ring
    unfold seqNextRun
    rw [hfuel, step_seqNextO, hcell]
    dsimp only
    cases hact : act.run v with
    | error e =>
      dsimp only
      rw [reject_pending_empty (5 * rest.length + 4) _ d e
        (by simp only [pushTrace_defs, updSeq_defs]; rw [hd]; rfl)
        (by simp only [pushTrace_defs, updSeq_defs]; rw [hd]; rfl)
        (by simp only [pushTrace_defs, updSeq_defs]; rw [hd]; rfl)]
      dsimp only
      refine ⟨_, rfl, ?_, ?_, ?_, by simp⟩
      · simp [seqSpecTrace, hact]
      · simp only [pushCheck_defs, updDef_defs_same, pushTrace_defs,
          updSeq_defs]
        rw [hd]
        simp only [seqSpecOutcome, hact]
        rfl
      · intro j hj _
        simp [updDef_defs, hj]
    | ok r =>
      have hthen : isThenable r = false :=
        hpure (tag, act) (List.mem_cons_self _ _) v r hact
      dsimp only
      set W2 := (w.updSeq cell
        (fun s => { s with remaining := some rest })).pushTrace (tag, v) with hW2
      rw [whenO_nonThenable_spec (5 * rest.length + 3) _ _ hthen]
      set WD := ((freshDef W2 none).1.updDef W2.nextDef
        (fun s => { s with result := r, fulfilled := true })).updDef W2.nextDef
        (fun s => { s with waiting := none }) with hWD
      rw [thenO_settled_notify (5 * rest.length + 6) WD W2.nextDef _ _ _
        (by rw [hWD]; simp [updDef_defs_same, freshDef_defs_same])
        (by rw [hWD]; simp [updDef_defs_same, freshDef_defs_same])
        (by rw [hWD]; simp [updDef_defs_same, freshDef_defs_same])
        (by rw [hWD]; simp)]
      set WN := (freshDef WD none).1 with hWN
      have hn2 : W2.nextDef = w.nextDef := by rw [hW2]; simp
      have hnD : WD.nextDef = w.nextDef + 1 := by rw [hWD]; simp [hn2]
      have hnN : WN.nextDef = w.nextDef + 2 := by rw [hWN]; simp [hnD]
      obtain ⟨wR, hR1, hR2, hR3, hR4, hR5⟩ := ih hpure_rest cell d r
        (WN.updDef W2.nextDef (fun s => { s with handled := true }))
        (by rw [hWN, hWD, hW2]
            simp [updSeq_cells_same, hcell])
        (by rw [hWN, hWD, hW2]
            simp [updDef_defs, freshDef_defs, hd,
              Nat.ne_of_lt hdn, show d ≠ w.nextDef + 1 by omega])
        (by simp only [updDef_nextDef]; rw [hnN]; omega)
      unfold seqNextRun at hR1
      have hst : WN.defs W2.nextDef
          = { result := r, fulfilled := true, waiting := none } := by
        rw [hWN, freshDef_defs_ne _ _ _ (by rw [hn2, hnD]; omega), hWD]
        simp [updDef_defs_same, freshDef_defs_same]
      have hcd : wR.defs WD.nextDef = { canceller := none } := by
        rw [hR4 WD.nextDef (by rw [hnD]; omega)
            (by simp only [updDef_nextDef]; rw [hnD, hnN]; omega)]
        rw [updDef_defs_ne _ _ _ _ (by rw [hnD, hn2]; omega), hWN,
          freshDef_defs_same]
      rw [notify_seqNext_run (5 * rest.length + 1) WN W2.nextDef cell
        WD.nextDef (some (.rejectOf d)) none r (by rw [hst]) (by rw [hst])
        wR hR1 (by rw [hcd]) (by rw [hcd])]
      refine ⟨_, rfl, ?_, ?_, ?_, ?_⟩
      · simp only [updDef_trace]
        rw [hR2, hWN, hWD, hW2]
        simp [seqSpecTrace, hact]
      · rw [updDef_defs_ne _ _ _ _ (by rw [hnD]; omega),
          updDef_defs_ne _ _ _ _ (by rw [hnD]; omega), hR3]
        simp [seqSpecOutcome, hact]
      · intro j hj hjlt
        rw [updDef_defs_ne _ _ _ _ (by rw [hnD]; omega),
          updDef_defs_ne _ _ _ _ (by rw [hnD]; omega)]
        rw [hR4 j hj (by simp only [updDef_nextDef]; rw [hnN]; omega)]
        rw [updDef_defs_ne _ _ _ _ (by rw [hn2]; omega), hWN,
          freshDef_defs_ne _ _ _ (by rw [hnD]; omega), hWD]
        rw [updDef_defs_ne _ _ _ _ (by rw [hn2]; omega),
          updDef_defs_ne _ _ _ _ (by rw [hn2]; omega),
          freshDef_defs_ne _ _ _ (by rw [hn2]; omega), hW2]
        simp
      · simp only [updDef_nextDef] at hR5 ⊢
        rw [hnN] at hR5
        omega

/-- Claim C7.  For every list of pure one-argument actions and every
starting value, `seq` returns its deferred without throwing and runs the
actions strictly sequentially: the trace records each action invoked
exactly once, in list order, with the previous step's result (the first
receives the starting value), stopping at the first synchronous throw
(`seqSpecTrace`); the sequence deferred fulfills with the last result, or,
if an action throws, rejects with exactly that error and no later action is
ever invoked (`seqSpecOutcome`).  When an action instead returns a Future
Value that later rejects (`c7promiseWorld`: the second of three actions
returns a pending promise, which is then rejected with `e`), the sequence
deferred is rejected with `e` and the third action never runs: the trace
ends at the second action. -/
theorem C7_seq_sequencing (acts : List (Nat × UserCb))
    (hpure : PureActions acts) (v : Value) (n : Int) (e : Value) :
    (∃ w2,
      seqOp (5 * acts.length + 4) W0 acts v = (w2, .ok 0) ∧
      w2.trace = seqSpecTrace acts v ∧
      w2.defs 0 = seqDoneState 0 (seqSpecOutcome acts v)) ∧
    ((c7promiseWorld n e).defs 1).isError = true ∧
    ((c7promiseWorld n e).defs 1).fulfilled = true ∧
    ((c7promiseWorld n e).defs 1).result = e ∧
    (c7promiseWorld n e).trace = [(1, .intV n), (2, .intV (n + 1))] := by
  refine ⟨?_, rfl, rfl, rfl, rfl⟩
  unfold seqOp
  dsimp only [W0, freshDef]
  obtain ⟨wR, hR1, hR2, hR3, hR4, hR5⟩ := seqNext_go acts hpure 0 0 v
    { defs := Function.update (fun _ => ({} : DefState)) 0
        { canceller := some (Canceller.seqCanceller 0) },
      nextDef := 0 + 1,
      allCells := fun _ => ({} : AllCell),
      nextAll := 0,
      seqCells := Function.update (fun _ => ({} : SeqCell)) 0
        { remaining := some acts, cancelled := false, deferred := 0 },
      nextSeq := 0 + 1, trace := [], emitted := [], checks := [], timers := [] }
    (by simp) (by simp [seqPendingState]) (by simp)
  rw [hR1]
  exact ⟨wR, rfl, by simpa using hR2, hR3⟩

theorem C7_witness :
    PureActions c7acts ∧
    ((∃ w2,
        seqOp (5 * c7acts.length + 4) W0 c7acts (.intV 0) = (w2, .ok 0) ∧
        w2.trace = seqSpecTrace c7acts (.intV 0) ∧
        w2.defs 0 = seqDoneState 0 (seqSpecOutcome c7acts (.intV 0))) ∧
      ((c7promiseWorld 0 (.boolV true)).defs 1).isError = true ∧
      ((c7promiseWorld 0 (.boolV true)).defs 1).fulfilled = true ∧
      ((c7promiseWorld 0 (.boolV true)).defs 1).result = .boolV true ∧
      (c7promiseWorld 0 (.boolV true)).trace
        = [(1, .intV 0), (2, .intV (0 + 1))]) := by
  have hp : PureActions c7acts := by
    intro p hp x r h
    simp only [c7acts, List.mem_cons, List.not_mem_nil, or_false] at hp
    rcases hp with h1 | h1 | h1 <;> subst h1 <;>
      cases x <;> simp_all [UserCb.run, isThenable] <;> subst h <;> rfl
  exact ⟨hp, C7_seq_sequencing c7acts hp (.intV 0) 0 (.boolV true)⟩

end Promised
